import Mathlib

set_option maxRecDepth 16384

namespace Juriscraper

/-!
Verification of the PACER notification-email parser
(`juriscraper/pacer/email.py`, class `NotificationEmail`).

Python strings are modelled as `String`; every Python string operation used by
the source is implemented over `String.toList` so that all definitions are
executable and decidable.  Collaborator functions that live outside the
embedded file (`juriscraper.lib.string_utils`, `juriscraper.pacer.utils`,
`BaseDocketReport` helpers, the lxml query layer) are modelled from the spec
and carry a doc comment saying so.
-/

deriving instance DecidableEq for Except

/-! ## Character-list primitives -/

/-- Index of the first occurrence of `pat` as a contiguous sublist of `l`
(Python `str.find` / leftmost regex literal match). -/
def findSubIdx (pat : List Char) : List Char → Option Nat
  | [] => if pat = [] then some 0 else none
  | c :: rest =>
    if pat.isPrefixOf (c :: rest) then some 0
    else (findSubIdx pat rest).map (· + 1)

/-- Substring test over strings (Python `pat in s`). -/
def containsSub (pat s : String) : Bool :=
  (findSubIdx pat.toList s.toList).isSome

/-- Substring test over character lists. -/
def containsSubL (pat l : List Char) : Bool :=
  (findSubIdx pat l).isSome

/-- Split on a single character (Python `str.split(sep)` with a one-character
separator: keeps empty segments). -/
def splitCh (sep : Char) : List Char → List (List Char)
  | [] => [[]]
  | c :: rest =>
    match splitCh sep rest with
    | [] => [[c]]
    | cur :: others =>
      if c = sep then [] :: cur :: others else (c :: cur) :: others

/-- Split on a character predicate (used for runs of whitespace). -/
def splitPred (p : Char → Bool) : List Char → List (List Char)
  | [] => [[]]
  | c :: rest =>
    match splitPred p rest with
    | [] => [[c]]
    | cur :: others =>
      if p c then [] :: cur :: others else (c :: cur) :: others

/-- The maximal whitespace-free words of `l`, in order (Python
`str.split()` with no separator argument). -/
def wordsL (l : List Char) : List (List Char) :=
  (splitPred Char.isWhitespace l).filter (· ≠ [])

/-- Join a list of words with a separator character between consecutive
words (Python `sep.join(...)` for a one-character separator). -/
def joinSep (sep : Char) : List (List Char) → List Char
  | [] => []
  | [w] => w
  | w :: v :: us => w ++ sep :: joinSep sep (v :: us)

/-- Join with single spaces. -/
def joinSp (ws : List (List Char)) : List Char :=
  joinSep ' ' ws

/-- Python `str.strip()`. -/
def pyStripL (l : List Char) : List Char :=
  ((l.dropWhile Char.isWhitespace).reverse.dropWhile Char.isWhitespace).reverse

/-- Python `str.strip()` over strings. -/
def pyStrip (s : String) : String :=
  String.mk (pyStripL s.toList)

/-- Helper for `pySplitLines`: accumulate the current line (reversed). -/
def splitLinesGo : List Char → List Char → List (List Char)
  | [], acc => [acc.reverse]
  | '\r' :: '\n' :: rest, acc => acc.reverse :: splitLinesGo rest []
  | '\r' :: rest, acc => acc.reverse :: splitLinesGo rest []
  | '\n' :: rest, acc => acc.reverse :: splitLinesGo rest []
  | c :: rest, acc => splitLinesGo rest (c :: acc)

/-- Python `str.splitlines()`: splits on `\n`, `\r`, `\r\n`; a trailing line
terminator does not produce a final empty line. -/
def pySplitLines (l : List Char) : List (List Char) :=
  if l = [] then []
  else
    let r := splitLinesGo l []
    match l.getLast? with
    | some '\n' => r.dropLast
    | some '\r' => r.dropLast
    | _ => r

/-- `re.findall(r"MARKER(.*)", body)`: for every `\n`-terminated segment that
contains the marker, the text from just after the first occurrence of the
marker to the end of the segment (regex `.` does not match `\n`). -/
def captureLines (marker : String) (body : String) : List String :=
  (splitCh '\n' body.toList).filterMap fun line =>
    (findSubIdx marker.toList line).map fun i =>
      String.mk (line.drop (i + marker.toList.length))

/-- Fuel-driven worker for `pySplitOnSub`. -/
def splitSubFuel (pat : List Char) : Nat → List Char → List (List Char)
  | 0, l => [l]
  | fuel + 1, l =>
    match findSubIdx pat l with
    | none => [l]
    | some i => l.take i :: splitSubFuel pat fuel (l.drop (i + pat.length))

/-- Python `str.split(sep)` with a non-empty multi-character separator. -/
def pySplitOnSub (pat : String) (s : String) : List String :=
  if pat.toList = [] then [s]
  else (splitSubFuel pat.toList (s.toList.length + 1) s.toList).map String.mk

/-- Fuel-driven worker for `pyReplaceSub`. -/
def replaceSubFuel (pat rep : List Char) : Nat → List Char → List Char
  | 0, l => l
  | fuel + 1, l =>
    match findSubIdx pat l with
    | none => l
    | some i => l.take i ++ rep ++ replaceSubFuel pat rep fuel (l.drop (i + pat.length))

/-- Python `str.replace(pat, rep)` for a non-empty `pat`. -/
def pyReplaceSub (pat rep : String) (s : String) : String :=
  if pat.toList = [] then s
  else String.mk (replaceSubFuel pat.toList rep.toList (s.toList.length + 1) s.toList)

/-- Replace every occurrence of character `a` by `b`. -/
def charReplace (a b : Char) (s : String) : String :=
  String.mk (s.toList.map fun c => if c = a then b else c)

/-- Parse a non-empty all-digit character list as a `Nat`. -/
def parseNatL (l : List Char) : Option Nat :=
  if l ≠ [] ∧ l.all Char.isDigit then
    some (l.foldl (fun n c => n * 10 + (c.toNat - 48)) 0)
  else none

/-- Last element with a default (Python `xs[-1]` at call sites where the list
is known non-empty, with an explicit default for totality). -/
def lastD (l : List α) (d : α) : α :=
  l.getLastD d

/-- First element with a default. -/
def headD (l : List α) (d : α) : α :=
  l.headD d

/-- Python `str.endswith`. -/
def pyEndsWith (suf s : String) : Bool :=
  suf.toList.reverse.isPrefixOf s.toList.reverse

/-! ## Basic lemmas about the primitives -/

theorem splitCh_ne_nil (sep : Char) (l : List Char) : splitCh sep l ≠ [] := by
  cases l with
  | nil => simp [splitCh]
  | cons c rest =>
    simp only [splitCh]
    cases h : splitCh sep rest with
    | nil => simp
    | cons a as => by_cases hc : c = sep <;> simp [hc]

theorem mem_splitCh_of_mem {c : Char} {sep : Char} {l : List Char}
    (hmem : c ∈ l) (hne : c ≠ sep) : ∃ p ∈ splitCh sep l, c ∈ p := by
  induction l with
  | nil => cases hmem
  | cons a rest ih =>
    simp only [splitCh]
    cases h : splitCh sep rest with
    | nil => exact absurd h (splitCh_ne_nil sep rest)
    | cons p ps =>
      rw [h] at ih
      rcases List.mem_cons.mp hmem with hca | hcr
      · subst hca
        simp only [hne, if_false]
        exact ⟨c :: p, List.mem_cons_self _ _, List.mem_cons_self _ _⟩
      · rcases ih hcr with ⟨q, hq, hcq⟩
        by_cases ha : a = sep
        · simp only [ha, if_true]
          exact ⟨q, List.mem_cons_of_mem _ hq, hcq⟩
        · simp only [ha, if_false]
          rcases List.mem_cons.mp hq with hqp | hqs
          · subst hqp
            exact ⟨a :: q, List.mem_cons_self _ _, List.mem_cons_of_mem _ hcq⟩
          · exact ⟨q, List.mem_cons_of_mem _ hqs, hcq⟩

theorem splitPred_ne_nil (p : Char → Bool) (l : List Char) : splitPred p l ≠ [] := by
  cases l with
  | nil => simp [splitPred]
  | cons c rest =>
    simp only [splitPred]
    cases h : splitPred p rest with
    | nil => simp
    | cons a as => by_cases hc : p c <;> simp [hc]

theorem mem_splitPred_of_mem {c : Char} {p : Char → Bool} {l : List Char}
    (hmem : c ∈ l) (hne : p c = false) : ∃ w ∈ splitPred p l, c ∈ w := by
  induction l with
  | nil => cases hmem
  | cons a rest ih =>
    simp only [splitPred]
    cases h : splitPred p rest with
    | nil => exact absurd h (splitPred_ne_nil p rest)
    | cons w ws =>
      rw [h] at ih
      rcases List.mem_cons.mp hmem with hca | hcr
      · subst hca
        simp only [hne, if_false]
        exact ⟨c :: w, List.mem_cons_self _ _, List.mem_cons_self _ _⟩
      · rcases ih hcr with ⟨q, hq, hcq⟩
        by_cases ha : p a
        · simp only [ha, if_true]
          exact ⟨q, List.mem_cons_of_mem _ hq, hcq⟩
        · simp only [ha, if_false]
          rcases List.mem_cons.mp hq with hqp | hqs
          · subst hqp
            exact ⟨a :: q, List.mem_cons_self _ _, List.mem_cons_of_mem _ hcq⟩
          · exact ⟨q, List.mem_cons_of_mem _ hqs, hcq⟩

theorem splitPred_chars {p : Char → Bool} {l : List Char} :
    ∀ w ∈ splitPred p l, ∀ c ∈ w, p c = false := by
  induction l with
  | nil =>
    intro w hw c hc
    simp [splitPred] at hw
    subst hw
    cases hc
  | cons a rest ih =>
    intro w hw c hc
    simp only [splitPred] at hw
    cases h : splitPred p rest with
    | nil => exact absurd h (splitPred_ne_nil p rest)
    | cons q qs =>
      rw [h] at hw ih
      by_cases ha : p a
      · simp only [ha, if_true] at hw
        rcases List.mem_cons.mp hw with hqe | hqm
        · subst hqe; cases hc
        · exact ih w hqm c hc
      · simp only [ha, if_false] at hw
        rcases List.mem_cons.mp hw with hqe | hqm
        · subst hqe
          rcases List.mem_cons.mp hc with hce | hcm
          · subst hce
            simpa using ha
          · exact ih q (List.mem_cons_self _ _) c hcm
        · exact ih w (List.mem_cons_of_mem _ hqm) c hc

theorem mem_joinSep {c : Char} {sep : Char} {w : List Char} {ws : List (List Char)}
    (hw : w ∈ ws) (hc : c ∈ w) : c ∈ joinSep sep ws := by
  induction ws with
  | nil => cases hw
  | cons v vs ih =>
    cases vs with
    | nil =>
      rcases List.mem_cons.mp hw with hve | hvm
      · subst hve
        simpa [joinSep] using hc
      · cases hvm
    | cons u us =>
      rcases List.mem_cons.mp hw with hve | hvm
      · subst hve
        simp [joinSep, hc]
      · have := ih hvm
        simp [joinSep, this]

/-- If `sep` does not occur in `w`, splitting does nothing. -/
theorem splitCh_no_sep {sep : Char} {w : List Char} (h : sep ∉ w) :
    splitCh sep w = [w] := by
  induction w with
  | nil => simp [splitCh]
  | cons c cs ih =>
    have hc : c ≠ sep := fun he => h (he ▸ List.mem_cons_self _ _)
    have hcs : sep ∉ cs := fun hm => h (List.mem_cons_of_mem _ hm)
    simp only [splitCh, ih hcs]
    simp [hc]

/-- Splitting after a separator-free chunk followed by a separator. -/
theorem splitCh_append_sep {sep : Char} {w t : List Char} (h : sep ∉ w) :
    splitCh sep (w ++ sep :: t) = w :: splitCh sep t := by
  induction w with
  | nil =>
    simp only [List.nil_append, splitCh]
    cases ht : splitCh sep t with
    | nil => exact absurd ht (splitCh_ne_nil sep t)
    | cons q qs => simp
  | cons c cs ih =>
    have hc : c ≠ sep := fun he => h (he ▸ List.mem_cons_self _ _)
    have hcs : sep ∉ cs := fun hm => h (List.mem_cons_of_mem _ hm)
    rw [List.cons_append]
    simp only [splitCh]
    rw [ih hcs]
    simp [hc]

/-- `splitCh` is a left inverse of `joinSep` on lists of non-empty,
separator-free words. -/
theorem splitCh_joinSep {sep : Char} {ws : List (List Char)}
    (hws : ∀ w ∈ ws, w ≠ [] ∧ sep ∉ w) (hne : ws ≠ []) :
    splitCh sep (joinSep sep ws) = ws := by
  induction ws with
  | nil => exact absurd rfl hne
  | cons w vs ih =>
    cases vs with
    | nil =>
      have hw := hws w (List.mem_cons_self _ _)
      simpa [joinSep] using splitCh_no_sep hw.2
    | cons v us =>
      have hw := hws w (List.mem_cons_self _ _)
      have hrest := ih (fun u hu => hws u (List.mem_cons_of_mem _ hu)) (by simp)
      simp only [joinSep, splitCh_append_sep hw.2]
      rw [hrest]

theorem wordsL_ne_nil {l : List Char} : ∀ w ∈ wordsL l, w ≠ [] := by
  intro w hw
  exact of_decide_eq_true (List.mem_filter.mp hw).2

theorem wordsL_no_ws {l : List Char} :
    ∀ w ∈ wordsL l, ∀ c ∈ w, c.isWhitespace = false := by
  intro w hw c hc
  exact splitPred_chars w (List.mem_filter.mp hw).1 c hc

/-- Whitespace collapsing preserves every non-whitespace character. -/
theorem mem_cleanish {c : Char} {l : List Char}
    (hmem : c ∈ l) (hws : c.isWhitespace = false) :
    c ∈ joinSp (wordsL l) := by
  rcases mem_splitPred_of_mem hmem hws with ⟨w, hw, hcw⟩
  have hwne : w ≠ [] := by
    intro h
    subst h
    cases hcw
  exact mem_joinSep (List.mem_filter.mpr ⟨hw, by simpa using hwne⟩) hcw

/-! ## Collaborators modelled from the spec -/

/-- Modelled from the spec: `clean_string` from `juriscraper.lib.string_utils`
(not under `src/`).  The spec describes it as "general string
cleaning/normalization (whitespace collapsing)" — runs of whitespace are
collapsed to single spaces and the ends are trimmed. -/
def cleanStringL (l : List Char) : List Char :=
  joinSp (wordsL l)

/-- `cleanStringL` over strings. -/
def cleanString (s : String) : String :=
  String.mk (cleanStringL s.toList)

/-- Modelled from the spec: `harmonize` from `juriscraper.lib.string_utils`
(not under `src/`).  The spec describes it only as case-name canonicalization
and fixes no algorithm; it is modelled as the identity normalization. -/
def harmonize (s : String) : String := s

/-- A calendar date. -/
structure CalDate where
  month : Nat
  day : Nat
  year : Nat
deriving Repr, DecidableEq

/-- Python-level failure outcomes of the parser, as raised by the source. -/
inductive PyError where
  /-- `raise NotImplementedError(msg)` -/
  | notImplementedError (msg : String)
  /-- `raise Exception(msg)` -/
  | exception (msg : String)
  /-- subscripting `None` (`TypeError`), carrying no message and no court id -/
  | typeError
  /-- indexing an empty node-set or list (`IndexError`) -/
  | indexError
  /-- `str.split` with an empty separator (`ValueError`) -/
  | valueError
  /-- reading a local variable that was never assigned (`NameError`) -/
  | nameError
deriving Repr, DecidableEq

/-- Modelled from the spec: `convert_date_string` from
`juriscraper.lib.string_utils` (not under `src/`): "date-string-to-date
conversion".  Parses a slash-separated `month/day/year` numeric string and
fails on anything else. -/
def convertDateString (s : String) : Except PyError CalDate :=
  match (splitCh '/' (pyStripL s.toList)).map parseNatL with
  | [some m, some d, some y] => .ok ⟨m, d, y⟩
  | _ => .error (.exception "Unable to parse date string")

/-- Modelled from the spec: `BaseDocketReport._parse_docket_number_strs`
(defined in `docket_report.py`, not under `src/`).  The spec says the docket
number is the "raw extracted identifier, not further validated", picked from
the candidate strings; modelled as the first candidate that is non-empty
after cleaning, and `None` when there is none. -/
def parseDocketNumberStrs (cands : List String) : Option String :=
  (cands.map cleanString).find? (fun s => s ≠ "")

/-- Modelled from the spec: `get_pacer_doc_id_from_doc1_url` from
`juriscraper.pacer.utils` (not under `src/`).  The spec specifies only the
interface — a decoder "taking a document-view URL ..., returning optional
string identifiers" — and no algorithm, so the decoder is modelled as
returning no identifier. -/
def getPacerDocIdFromDoc1Url (_url : String) : Option String := none

/-- Modelled from the spec: `get_pacer_case_id_from_doc1_url` from
`juriscraper.pacer.utils` (not under `src/`); interface-only, see
`getPacerDocIdFromDoc1Url`. -/
def getPacerCaseIdFromDoc1Url (_url : String) : Option String := none

/-- Modelled from the spec: `get_pacer_seq_no_from_doc1_url` from
`juriscraper.pacer.utils` (not under `src/`); interface-only, see
`getPacerDocIdFromDoc1Url`. -/
def getPacerSeqNoFromDoc1Url (_url : String) : Option String := none

/-- Modelled from the spec: `get_pacer_magic_num_from_doc1_url` from
`juriscraper.pacer.utils` (not under `src/`); takes the appellate flag per
the spec's interface description; interface-only, see
`getPacerDocIdFromDoc1Url`. -/
def getPacerMagicNumFromDoc1Url (_url : String) (_appellate : Bool) :
    Option String := none

/-- Modelled from the spec: `get_pacer_case_id_from_nonce_url` from
`juriscraper.pacer.utils` (not under `src/`); "the generic nonce-URL
decoder"; interface-only, see `getPacerDocIdFromDoc1Url`. -/
def getPacerCaseIdFromNonceUrl (_url : String) : Option String := none

/-! ## Data model (`DocketEntryType`, `DocketType`, recipients) -/

/-- One entry of an `email_recipients` list. -/
structure Recipient where
  name : String
  email_addresses : List String
deriving Repr, DecidableEq

/-- `DocketEntryType` (email.py lines 22-31) plus the `short_description`
key the extractor adds. -/
structure DocketEntryR where
  date_filed : CalDate
  description : String
  short_description : String
  document_url : Option String
  document_number : Option String
  pacer_doc_id : Option String
  pacer_case_id : Option String
  pacer_seq_no : Option String
  pacer_magic_num : Option String
deriving Repr, DecidableEq

/-- `DocketType` (email.py lines 33-37). -/
structure DocketR where
  case_name : String
  docket_number : Option String
  date_filed : Option CalDate
  docket_entries : List DocketEntryR
deriving Repr, DecidableEq

/-! ## The document tree

The lxml query layer is a collaborator (spec section 1: "the core consumes a
parsed document tree and issues structural queries against it; the query
engine itself is a collaborator").  Each field below records the result of
one of the xpath queries the source issues. -/

/-- One table matched by `//table[contains(., 'Case Name:')]` — the
structural anchor of a docket. -/
structure DocketTable where
  /-- `_xpath_text_0` of `.//td[contains(., "Case Name:")]/following-sibling::td[1]` -/
  caseNameText : Option String := none
  /-- the same query with a trailing `/p` (nested-paragraph fallback) -/
  caseNamePText : Option String := none
  /-- appellate: `_xpath_text_0` of the "Case Number" sibling cell's `/a` -/
  caseNumberAnchorText : Option String := none
  /-- `.//td[contains(., "Case Number:")]/following-sibling::td[1]/a/text()` -/
  caseNumberAnchorTexts : List String := []
  /-- the same with `/p/a/text()` -/
  caseNumberPAnchorTexts : List String := []
  /-- text content of the first node at the "Document Number" sibling path;
  `none` models the empty node-set (then `xpath(path)[0]` raises
  `IndexError`) -/
  documentNumberCellText : Option String := none
  /-- href of the anchor under the "Document(s)" sibling cell (appellate);
  `none` models the `IndexError` caught by `_get_doc1_anchor` -/
  documentsAnchorHref : Option String := none
  /-- href of the anchor under the "Document Number" sibling cell -/
  documentNumberAnchorHref : Option String := none
  /-- href of the anchor under the "Case Number" sibling cell
  (`_get_case_anchor`; `none` models the caught `IndexError`) -/
  caseAnchorHref : Option String := none
  /-- NEF description lookup: the text node-sets of the four
  `possible_paths` relative to
  `following::strong[contains(., "Docket Text:")][1]/parent::p/`, in source
  order -/
  descriptionCandidates : List (List String) := []
  /-- NDA description lookup: the text nodes following the
  "Docket Text:" marker -/
  appellateDescriptionTexts : List String := []
deriving Repr, DecidableEq

/-- The parsed document (`self.tree`) with the query results the source
consumes. -/
structure HtmlTree where
  /-- `self.tree.text_content()` -/
  textContent : String
  /-- the tables matched by `//table[contains(., 'Case Name:')]` -/
  docketTables : List DocketTable := []
  /-- number of `//strong[contains(., "Document description:")]` nodes -/
  strongDocumentDescriptionCount : Nat := 0
  /-- text nodes after `strong[contains(text(), 'Document Description: ')]` -/
  documentDescriptionFooterTexts : List String := []
  /-- NDA recipients: `text()` following
  `//strong[contains(., "Notice will be electronically mailed to")]` -/
  recipientStrongLines : List String := []
  /-- NEF recipients: `text()` following
  `//b[contains(., "Notice has been electronically mailed to")]` -/
  recipientBLines : List String := []
  /-- count of anchors following the same `b` label -/
  recipientBLinkCount : Nat := 0
  /-- `string(//b[contains(., "Notice has been electronically mailed
  to")]/parent::node())` -/
  recipientBlockString : String := ""
  /-- fallback: `text()` following
  `//b[contains(., "Notice will be electronically mailed to")]` -/
  recipientFallbackLines : List String := []
deriving Repr, DecidableEq

/-- The mutable attributes of a `NotificationEmail` instance that the parse
reads and writes (`__init__` lines 52-64, plus `content_type`, `subject`,
`tree` and `is_valid`, which the upstream MIME/report collaborator assigns
before `data` is read). -/
structure NEState where
  court_id : String
  content_type : Option String := none
  appellate : Option Bool := none
  image_attached : Bool := false
  docket_numbers : List (Option String) := []
  subject : Option String := none
  case_names : List String := []
  is_bankruptcy : Bool := false
  is_valid : Option Bool := none
  tree : Option HtmlTree := none
deriving Repr, DecidableEq

/-- `NotificationEmail.__init__(court_id)` followed by the upstream
collaborator assigning `content_type`, `subject`, `tree`, `is_valid` and
`image_attached`. -/
def mkNotificationEmail (court_id : String) (content_type : Option String)
    (subject : Option String) (tree : Option HtmlTree) (is_valid : Option Bool)
    (image_attached : Bool) : NEState :=
  { court_id := court_id
    content_type := content_type
    appellate := none
    image_attached := image_attached
    docket_numbers := []
    subject := subject
    case_names := []
    is_bankruptcy := pyEndsWith "b" court_id
    is_valid := is_valid
    tree := tree }

/-! ## Source-translated functions (`NotificationEmail` methods)

Mutation of `self.appellate`, `self.case_names` and `self.docket_numbers` is
made explicit: functions take the current cache values and return updated
ones.  Through `data`, `self.appellate` is always computed (a `Bool`) before
any consumer runs, so downstream functions take it as `Bool`. -/

/-- The output mapping of `NotificationEmail.data` (email.py lines 66-85). -/
structure NotificationData where
  court_id : String
  appellate : Bool
  dockets : List DocketR
  contains_attachments : Bool
  email_recipients : List Recipient
deriving Repr, DecidableEq

/-- `_is_appellate` (lines 87-98): the NDA marker test on the body text. -/
def isAppellateCompute (tree : HtmlTree) : Bool :=
  containsSub "Notice of Docket Activity" tree.textContent

/-- `_get_case_name` (lines 111-127).  Returns the harmonized case name and
the pre-harmonized cleaned value that is appended to `self.case_names`. -/
def getCaseNameHtml (table : DocketTable) : String × String :=
  let case_name :=
    let c0 := table.caseNameText.getD ""
    if c0 ≠ "" then c0
    else
      let c1 := table.caseNamePText.getD ""
      if c1 ≠ "" then c1 else "Unknown Case Title"
  (cleanString (harmonize case_name), cleanString case_name)

/-- Message of the `NotImplementedError` raised by `_get_case_name_plain`
(lines 140-145). -/
def plainMultiDocketMsg (court : String) : String :=
  "Received a potential multi-docket text/plain notification. This is probably our chance to add support for it. court: " ++ court

/-- `_get_case_name_plain` (lines 129-154), up to the raw case name.  The
caller appends `cleanString` of the result to `self.case_names` and returns
the cleaned harmonized value. -/
def getCaseNamePlainRaw (court body : String) : Except PyError String :=
  let finds := captureLines "Case Name:" body
  if finds.length > 1 then .error (.notImplementedError (plainMultiDocketMsg court))
  else .ok (headD finds "Unknown Case Title")

/-- `_get_docket_number` (lines 156-176). -/
def getDocketNumberHtml (appellate : Bool) (table : DocketTable) : Option String :=
  if appellate then table.caseNumberAnchorText
  else
    match parseDocketNumberStrs table.caseNumberAnchorTexts with
    | some d => some d
    | none => parseDocketNumberStrs table.caseNumberPAnchorTexts

/-- `_get_docket_number_plain` (lines 178-186). -/
def getDocketNumberPlain (body : String) : Option String :=
  parseDocketNumberStrs (captureLines "Case Number:" body)

/-- `_get_date_filed` (lines 188-198): `re.search(r"filed\son\s([\d|\/]*)")`
over the cleaned text content.  In cleaned text every whitespace is a single
space, so a match exists exactly when "filed on " occurs; the source then
subscripts the match object, so a missing match raises `TypeError`
(`None[0]`), with no message and no court id. -/
def getDateFiled (textContent : String) : Except PyError CalDate :=
  let cl := cleanStringL textContent.toList
  match findSubIdx ("filed on ".toList) cl with
  | none => .error .typeError
  | some i =>
    let capture := (cl.drop (i + 9)).takeWhile (fun c => c.isDigit || c == '|' || c == '/')
    convertDateString (String.mk capture)

/-- `_get_document_number` (lines 200-212): cleaned text of the "Document
Number" sibling cell; the no-document and empty sentinels map to `None`;
otherwise the first `re.split(r"\(|\s", ...)` token. -/
def getDocumentNumberHtml (table : DocketTable) : Except PyError (Option String) :=
  match table.documentNumberCellText with
  | none => .error .indexError
  | some raw =>
    let t := cleanString raw
    if t = "No document attached" ∨ t = "" then .ok none
    else .ok (some (String.mk (t.toList.takeWhile fun c => !(c == '(' || c.isWhitespace))))

/-- `_get_document_number_plain` (lines 214-225): the cleaned capture of the
"Document Number:" line marker, with no sentinel normalization. -/
def getDocumentNumberPlain (body : String) : Option String :=
  match captureLines "Document Number:" body with
  | c :: _ => some (cleanString c)
  | [] => none

/-- `_get_doc1_anchor` (lines 227-240), resolved to the anchor's href. -/
def getDoc1Anchor (appellate : Bool) (table : DocketTable) : Option String :=
  if appellate then table.documentsAnchorHref else table.documentNumberAnchorHref

/-- `re.search(r"caseId=(\d+)", url)` from `_get_case_id_from_case_url`. -/
def searchCaseId : List Char → Option String
  | [] => none
  | c :: rest =>
    if ("caseId=".toList).isPrefixOf (c :: rest) then
      let ds := ((c :: rest).drop 7).takeWhile Char.isDigit
      if ds.isEmpty then searchCaseId rest else some (String.mk ds)
    else searchCaseId rest

/-- `_get_case_id_from_case_url` (lines 254-267). -/
def getCaseIdFromCaseUrl (appellate : Bool) (case_url : String) : Option String :=
  if appellate then searchCaseId case_url.toList
  else getPacerCaseIdFromNonceUrl case_url

/-- Message of the `Exception` raised by `_get_description` (lines 307-309). -/
def descriptionHtmlMsg (court : String) : String :=
  "Can't get docket entry description, court: " ++ court

/-- Left fold of string parts (`description = description + des_part`). -/
def concatStrs (parts : List String) : String :=
  parts.foldl (fun a b => a ++ b) ""

/-- The NEF loop of `_get_description`: try each path's node-set in order,
returning the first whose concatenated cleaned text is non-empty.  (In the
source a cleaned-empty accumulator carries over to the next path, which is
the same as restarting from the empty string.) -/
def firstNonemptyCandidate (court : String) : List (List String) → Except PyError String
  | [] => .error (.exception (descriptionHtmlMsg court))
  | cand :: rest =>
    if cand.isEmpty then firstNonemptyCandidate court rest
    else
      let d := cleanString (concatStrs cand)
      if d ≠ "" then .ok d else firstNonemptyCandidate court rest

/-- `_get_description` (lines 269-309). -/
def getDescriptionHtml (court : String) (appellate : Bool) (table : DocketTable) :
    Except PyError String :=
  if appellate then
    let parts := table.appellateDescriptionTexts
    if parts.isEmpty then .error (.exception (descriptionHtmlMsg court))
    else
      let kept := parts.takeWhile (fun p => p != "Notice will be electronically mailed to:")
      let d := cleanString (concatStrs kept)
      if d ≠ "" then .ok d else .error (.exception (descriptionHtmlMsg court))
  else firstNonemptyCandidate court table.descriptionCandidates

/-- Message of the `Exception` raised by `_get_description_plain`
(lines 334-336). -/
def descriptionPlainMsg (court : String) : String :=
  "Can't get docket entry description for court: " ++ court

/-- Earliest of the two description terminators
(`The following document` / `electronically mailed to:`). -/
def firstTermIdx (rest : List Char) : Option Nat :=
  match findSubIdx ("The following document".toList) rest,
        findSubIdx ("electronically mailed to:".toList) rest with
  | some i, some j => some (min i j)
  | some i, none => some i
  | none, some j => some j
  | none, none => none

/-- `_get_description_plain` (lines 311-336): the non-greedy DOTALL capture
between the first "Docket Text:" and the earliest following terminator;
lines are then joined with leading spaces, stopping at a "Notice has been"
line, and cleaned. -/
def getDescriptionPlain (court body : String) : Except PyError String :=
  let bl := body.toList
  match findSubIdx ("Docket Text:".toList) bl with
  | none => .error (.exception (descriptionPlainMsg court))
  | some i =>
    let rest := bl.drop (i + 12)
    match firstTermIdx rest with
    | none => .error (.exception (descriptionPlainMsg court))
    | some j =>
      let descr := rest.take j
      let kept := (pySplitLines descr).takeWhile
        (fun line => !(containsSubL ("Notice has been".toList) line))
      let d := cleanStringL (kept.foldl (fun acc line => acc ++ ' ' :: line) [])
      if d.isEmpty then .error (.exception (descriptionPlainMsg court))
      else .ok (String.mk d)

/-- `_contains_attachments` (lines 338-349). -/
def containsAttachments (tree : HtmlTree) : Bool :=
  if tree.strongDocumentDescriptionCount ≤ 1 then false else true

/-- The section captured by the `_contains_attachments_plain` regex: from
just after the first "The following document(s) are associated with this
transaction:" to the first "electronically mailed to:" (or the end; the `$`
alternative can strip at most one trailing newline, which changes no line
counts). -/
def plainAttachmentsSection (body : String) : Option (List Char) :=
  let bl := body.toList
  let marker := "The following document(s) are associated with this transaction:".toList
  (findSubIdx marker bl).map fun i =>
    let rest := bl.drop (i + marker.length)
    match findSubIdx ("electronically mailed to:".toList) rest with
    | some j => rest.take j
    | none => rest

/-- The `associated_documents` counter of `_contains_attachments_plain`:
the number of lines of the captured section containing
"Document description:" (`0` when the section marker is absent). -/
def plainAttachmentMarkerCount (body : String) : Nat :=
  match plainAttachmentsSection body with
  | none => 0
  | some sect =>
    ((pySplitLines sect).filter
      (fun line => containsSubL ("Document description:".toList) line)).length

/-- `_contains_attachments_plain` (lines 351-366). -/
def containsAttachmentsPlain (body : String) : Bool :=
  plainAttachmentMarkerCount body > 1

/-! ### Short-description classifier (lines 510-663) -/

/-- Python `subject.split(sep)` for a string separator: an empty separator
raises `ValueError`. -/
def splitQ (s sep : String) : Except PyError (List String) :=
  if sep = "" then .error .valueError else .ok (pySplitOnSub sep s)

/-- Python `s.split(sep)` where `sep` may be `None` (`str.split(None)` is the
whitespace split). -/
def pySplitPy (sep? : Option String) (s : String) : Except PyError (List String) :=
  match sep? with
  | none => .ok ((wordsL s.toList).map String.mk)
  | some sep => splitQ s sep

/-- The loop of `_get_short_description` (lines 638-644): split the subject
on each cached case name until a split that divides it is found; the last
computed split is kept otherwise. -/
def chooseSplitGo (subject : String) : List String → Except PyError (List String)
  | [] => .error .nameError
  | [cn] => splitQ subject cn
  | cn :: cn2 :: rest => do
    let sp ← splitQ subject cn
    if sp.length > 1 then .ok sp else chooseSplitGo subject (cn2 :: rest)

/-- The subject split chosen by `_get_short_description`; `none` when there
are no cached case names (then the loop variable is never assigned and the
district branch raises `NameError`). -/
def chooseSplit (subject : String) (caseNames : List String) :
    Except PyError (Option (List String)) :=
  match caseNames with
  | [] => .ok none
  | l => (chooseSplitGo subject l).map some

/-- `re.search(r'"(.*?)"', s)`: the first double-quoted substring with no
newline between the quotes. -/
def firstQuoted : List Char → Option (List Char)
  | [] => none
  | '"' :: rest =>
    let pre := rest.takeWhile (fun c => !(c == '"' || c == '\n'))
    if (rest.drop pre.length).head? = some '"' then some pre
    else firstQuoted rest
  | _ :: rest => firstQuoted rest

/-- The footer heuristic of `_parse_appellate_short_description`
(lines 599-612): first footer text node (or empty on `IndexError`),
underscores rendered as spaces, the sentinel "Main document" treated as
empty. -/
def appellateFooterDesc (footerTexts : List String) : String :=
  let f1 := charReplace '_' ' ' (headD footerTexts "")
  if f1 = "Main document" then "" else f1

/-- The subject heuristic of `_parse_appellate_short_description`
(lines 614-621): the first double-quoted substring of the part of the
subject following the first cached case name. -/
def appellateSubjectDesc (cn subject : String) : String :=
  match firstQuoted (lastD (pySplitOnSub cn subject) "").toList with
  | some q => String.mk q
  | none => ""

/-- `_parse_appellate_short_description` (lines 590-627): the longer (by
`max(..., key=len)`, subject first on ties) of the two heuristics.
`self.case_names[0]` on an empty cache raises `IndexError`; an empty case
name makes `subject.split` raise `ValueError`. -/
def parseAppellateShortDescription (footerTexts : List String)
    (caseNames : List String) (subject : String) : Except PyError String :=
  let footer := appellateFooterDesc footerTexts
  match caseNames.head? with
  | none => .error .indexError
  | some cn0 =>
    if cn0 = "" then .error .valueError
    else
      let subjDesc := appellateSubjectDesc cn0 subject
      .ok (if footer.length > subjDesc.length then footer else subjDesc)

/-- `re.sub(r"^-.*?\s", "", s)`: when the string starts with a hyphen,
remove through the first whitespace character. -/
def removeLeadHyphen (s : String) : String :=
  match s.toList with
  | '-' :: rest =>
    match rest.findIdx? Char.isWhitespace with
    | some j => String.mk (rest.drop (j + 1))
    | none => s
  | _ => s

/-- Python `s.rsplit(sep, 1)[0]` for a one-character separator. -/
def rsplitBeforeLast (sep : Char) (s : String) : String :=
  let parts := splitCh sep s.toList
  if parts.length ≤ 1 then s else String.mk (joinSep sep parts.dropLast)

/-- A word character for the `\b` boundary ( `[A-Za-z0-9_]` ). -/
def isWordChar (c : Char) : Bool :=
  c.isAlphanum || c == '_'

/-- Fuel-driven worker for `removeChMarker`; `prev` is the character before
the current position (for the leading `\b`). -/
def chMarkerGo : Nat → Option Char → List Char → List Char
  | 0, _, l => l
  | fuel + 1, prev, l =>
    match l with
    | [] => []
    | c :: rest =>
      let boundaryBefore := match prev with
        | none => true
        | some p => !(isWordChar p)
      if boundaryBefore && (c == 'C') then
        match rest with
        | 'h' :: rest2 =>
          let ds := rest2.takeWhile Char.isDigit
          let after := rest2.drop ds.length
          let boundaryAfter := match after.head? with
            | none => true
            | some a => !(isWordChar a)
          if !ds.isEmpty && boundaryAfter then
            chMarkerGo fuel (some (lastD ds 'h')) after
          else c :: chMarkerGo fuel (some c) rest
        | _ => c :: chMarkerGo fuel (some c) rest
      else c :: chMarkerGo fuel (some c) rest

/-- `re.sub(r"\bCh\d+\b", "", s)` (the `nysb` chapter-marker removal). -/
def removeChMarker (s : String) : String :=
  String.mk (chMarkerGo (s.toList.length + 1) none s.toList)

/-- `_parse_bankruptcy_short_description` (lines 510-588).  The multi-docket
and unknown-court branches log an error (a side effect outside the returned
data) and yield an empty description. -/
def parseBankruptcyShortDescription (court : String)
    (docketNumbers : List (Option String)) (caseNames : List String)
    (subject : String) : Except PyError String :=
  if docketNumbers.length > 1 then .ok ""
  else
    match docketNumbers.head?, caseNames.head? with
    | some dn, some cn =>
      if court = "cacb" ∨ court = "ctb" ∨ court = "cob" then do
        let sp ← pySplitPy dn subject
        .ok (removeLeadHyphen (lastD sp ""))
      else if court = "njb" then do
        let sp ← pySplitPy dn subject
        let sd := rsplitBeforeLast '-' (lastD sp "")
        .ok (removeLeadHyphen sd)
      else if court = "nysb" then do
        let sp1 ← splitQ subject cn
        let sd := pyReplaceSub "Re:" "" (headD sp1 "")
        let sp2 ← pySplitPy dn sd
        .ok (removeLeadHyphen (removeChMarker (lastD sp2 "")))
      else if court = "pawb" then do
        let sp ← splitQ subject cn
        .ok (lastD sp "")
      else .ok ""
    | _, _ => .error .indexError

/-- `_get_short_description` (lines 629-663). -/
def getShortDescription (subject? : Option String) (caseNames : List String)
    (docketNumbers : List (Option String)) (appellate : Option Bool)
    (isBank : Bool) (court : String) (footerTexts : List String) :
    Except PyError String :=
  match subject? with
  | none => .ok ""
  | some subj0 =>
    if subj0 = "" then .ok ""
    else do
      let subject := cleanString subj0
      let split? ← chooseSplit subject caseNames
      let sd ←
        if appellate = some true then
          parseAppellateShortDescription footerTexts caseNames subject
        else if isBank then
          parseBankruptcyShortDescription court docketNumbers caseNames subject
        else
          match split? with
          | some sp => Except.ok (pyStrip (lastD sp ""))
          | none => Except.error PyError.nameError
      .ok (cleanString sd)

/-! ### Docket entry extractor (lines 423-508) -/

/-- `re.findall(r"view the document:[\r\n\s]+([^\r\n]+)", body)`, first
match: after a marker occurrence, skip the whitespace run (at least one
character) and capture the remainder of the line, which must be non-empty;
otherwise scanning continues at the next position. -/
def viewDocScan : List Char → Option String
  | [] => none
  | c :: rest =>
    if ("view the document:".toList).isPrefixOf (c :: rest) then
      let after := ((c :: rest).drop 18)
      let ws := after.takeWhile Char.isWhitespace
      let line := (after.drop ws.length).takeWhile (fun ch => !(ch == '\r' || ch == '\n'))
      if !ws.isEmpty && !line.isEmpty then some (String.mk line)
      else viewDocScan rest
    else viewDocScan rest

/-- The document-URL lookup of the plain-text branch of
`_get_docket_entries` (lines 436-442). -/
def firstViewDocUrl (body : String) : Option String :=
  viewDocScan body.toList

/-- `https?:\/\/` matches at this position. -/
def schemeAt (l : List Char) : Bool :=
  ("http://".toList).isPrefixOf l || ("https://".toList).isPrefixOf l

/-- Scan a single line (regex `.` stops at `\n`) for a space followed by an
embedded URL; the capture is the following `\S+` run. -/
def findUrlInLine : List Char → Option String
  | [] => none
  | c :: rest =>
    if c = '\n' then none
    else if c = ' ' && schemeAt rest then
      some (String.mk (rest.takeWhile (fun ch => !ch.isWhitespace)))
    else findUrlInLine rest

/-- `re.search(r"Case Number: .*? (https?:\/\/\S+)", body)` from the
plain-text branch of `_get_docket_entries` (lines 446-449). -/
def caseUrlScan : List Char → Option String
  | [] => none
  | c :: rest =>
    if ("Case Number: ".toList).isPrefixOf (c :: rest) then
      match findUrlInLine ((c :: rest).drop 13) with
      | some u => some u
      | none => caseUrlScan rest
    else caseUrlScan rest

/-- The case-URL lookup of the plain-text branch. -/
def caseUrlPlain (body : String) : Option String :=
  caseUrlScan body.toList

/-- Identifier decoding of `_get_docket_entries` (lines 484-505): decode
from `document_url` when present, then fall back on the case URL for
`pacer_case_id` when it is still falsy. -/
def attachPacerIds (appellate : Bool) (document_url case_url : Option String)
    (e : DocketEntryR) : DocketEntryR :=
  let e1 := match document_url with
    | none => e
    | some u =>
      let e2 := { e with pacer_doc_id := getPacerDocIdFromDoc1Url u,
                         pacer_magic_num := getPacerMagicNumFromDoc1Url u appellate }
      if appellate then e2
      else { e2 with pacer_case_id := getPacerCaseIdFromDoc1Url u,
                     pacer_seq_no := getPacerSeqNoFromDoc1Url u }
  let caseIdFalsy := match e1.pacer_case_id with
    | none => true
    | some s => s = ""
  match case_url with
  | some cu =>
    if caseIdFalsy then { e1 with pacer_case_id := getCaseIdFromCaseUrl appellate cu }
    else e1
  | none => e1

/-- The plain-text branch of `_get_docket_entries` (lines 423-508).  The
`description is not None` guard always holds (`_get_description_plain`
raises instead of returning `None`), so exactly one entry is produced. -/
def getDocketEntriesPlain (court body : String) (subject? : Option String)
    (caseNames : List String) (docketNumbers : List (Option String))
    (appellate : Bool) (isBank : Bool) (footerTexts : List String) :
    Except PyError (List DocketEntryR) := do
  let description ← getDescriptionPlain court body
  let document_url := firstViewDocUrl body
  let document_number0 := getDocumentNumberPlain body
  let case_url := caseUrlPlain body
  let document_number := if document_number0 = some "doc" then none else document_number0
  let date_filed ← getDateFiled body
  let short_description ← getShortDescription subject? caseNames docketNumbers
    (some appellate) isBank court footerTexts
  let entry : DocketEntryR :=
    { date_filed := date_filed
      description := description
      short_description := short_description
      document_url := document_url
      document_number := document_number
      pacer_doc_id := none
      pacer_case_id := none
      pacer_seq_no := none
      pacer_magic_num := none }
  .ok [attachPacerIds appellate document_url case_url entry]

/-- The HTML branch of `_get_docket_entries` (lines 423-508). -/
def getDocketEntriesHtml (court : String) (tree : HtmlTree)
    (subject? : Option String) (caseNames : List String)
    (docketNumbers : List (Option String)) (appellate : Bool) (isBank : Bool)
    (table : DocketTable) : Except PyError (List DocketEntryR) := do
  let description ← getDescriptionHtml court appellate table
  let document_url := getDoc1Anchor appellate table
  let document_number0 ← if appellate then Except.ok none else getDocumentNumberHtml table
  let case_url := table.caseAnchorHref
  let document_number := if document_number0 = some "doc" then none else document_number0
  let date_filed ← getDateFiled tree.textContent
  let short_description ← getShortDescription subject? caseNames docketNumbers
    (some appellate) isBank court tree.documentDescriptionFooterTexts
  let entry : DocketEntryR :=
    { date_filed := date_filed
      description := description
      short_description := short_description
      document_url := document_url
      document_number := document_number
      pacer_doc_id := none
      pacer_case_id := none
      pacer_seq_no := none
      pacer_magic_num := none }
  .ok [attachPacerIds appellate document_url case_url entry]

/-! ### Docket extractor (lines 368-421) -/

/-- Message of the `NotImplementedError` raised by `_get_dockets`
(lines 396-400). -/
def ndaMultiDocketMsg (court : String) : String :=
  "Received a potential multi-docket NDA notification. This is probably our chance to add support for it. court: " ++ court

/-- The plain-text branch of `_get_dockets` (lines 379-390): docket number
cached, then case name (cached pre-harmonized), then entries. -/
def getDocketsPlain (court body : String) (subject? : Option String)
    (appellate : Bool) (isBank : Bool) (footerTexts : List String)
    (caseNames : List String) (docketNumbers : List (Option String)) :
    Except PyError (List DocketR × List String × List (Option String)) := do
  let dn := getDocketNumberPlain body
  let dns := docketNumbers ++ [dn]
  let rawCn ← getCaseNamePlainRaw court body
  let cns := caseNames ++ [cleanString rawCn]
  let case_name := cleanString (harmonize rawCn)
  let entries ← getDocketEntriesPlain court body subject? cns dns appellate isBank footerTexts
  .ok ([{ case_name := case_name, docket_number := dn, date_filed := none,
          docket_entries := entries }], cns, dns)

/-- The per-table loop of the HTML branch of `_get_dockets`
(lines 401-411), threading the caches. -/
def docketLoopHtml (court : String) (tree : HtmlTree) (subject? : Option String)
    (appellate : Bool) (isBank : Bool) :
    List DocketTable → List String → List (Option String) →
    Except PyError (List DocketR × List String × List (Option String))
  | [], cns, dns => .ok ([], cns, dns)
  | table :: rest, cns, dns => do
    let dn := getDocketNumberHtml appellate table
    let dns1 := dns ++ [dn]
    let (case_name, cachedName) := getCaseNameHtml table
    let cns1 := cns ++ [cachedName]
    let entries ← getDocketEntriesHtml court tree subject? cns1 dns1 appellate isBank table
    let (ds, cns2, dns2) ← docketLoopHtml court tree subject? appellate isBank rest cns1 dns1
    .ok ({ case_name := case_name, docket_number := dn, date_filed := none,
           docket_entries := entries } :: ds, cns2, dns2)

/-- Overwrite the first entry's short description with `v`. -/
def setFirstShort (v : String) : List DocketEntryR → List DocketEntryR
  | [] => []
  | e :: es => { e with short_description := v } :: es

/-- The multi-docket overwrite loop of `_get_dockets` (lines 413-420):
`_get_short_description` is re-evaluated (purely) for each docket with a
non-empty entry list. -/
def applyOverwrite (gsd : Except PyError String) : List DocketR → Except PyError (List DocketR)
  | [] => .ok []
  | d :: ds =>
    if d.docket_entries.isEmpty then do
      let rest ← applyOverwrite gsd ds
      .ok (d :: rest)
    else do
      let v ← gsd
      let rest ← applyOverwrite gsd ds
      .ok ({ d with docket_entries := setFirstShort v d.docket_entries } :: rest)

/-- The HTML branch of `_get_dockets` (lines 391-421). -/
def getDocketsHtml (court : String) (tree : HtmlTree) (subject? : Option String)
    (appellate : Bool) (isBank : Bool) (caseNames : List String)
    (docketNumbers : List (Option String)) :
    Except PyError (List DocketR × List String × List (Option String)) :=
  if appellate = true ∧ 1 < tree.docketTables.length then
    .error (.notImplementedError (ndaMultiDocketMsg court))
  else do
    let (ds, cns, dns) ← docketLoopHtml court tree subject? appellate isBank
      tree.docketTables caseNames docketNumbers
    if 1 < ds.length then do
      let ds2 ← applyOverwrite (getShortDescription subject? cns dns (some appellate)
        isBank court tree.documentDescriptionFooterTexts) ds
      .ok (ds2, cns, dns)
    else .ok (ds, cns, dns)

/-! ### Recipient extractor (lines 665-809) -/

/-- `_get_emaiL_recipients_without_links` (lines 665-688): the plain-line
strategy. -/
def getEmailRecipientsWithoutLinks (recipient_lines : List String) : List Recipient :=
  recipient_lines.filterMap fun line =>
    if containsSub "@" line then
      let comma_separated := (splitCh ',' line.toList).map (fun p => cleanString (String.mk p))
      let name_and_first_email := splitCh ' ' (headD comma_separated "").toList
      some { name := String.mk (joinSep ' ' name_and_first_email.dropLast),
             email_addresses :=
               String.mk (lastD name_and_first_email []) :: comma_separated.tail }
    else none

/-- `re.sub(r"\n", "", ...)`. -/
def removeNewlines (l : List Char) : List Char :=
  l.filter (fun c => c != '\n')

theorem dropWhileLenLe (p : α → Bool) (l : List α) :
    (l.dropWhile p).length ≤ l.length := by
  induction l with
  | nil => simp
  | cons c rest ih =>
    by_cases hc : p c
    · simp only [List.dropWhile, hc]
      exact Nat.le_succ_of_le ih
    · simp [List.dropWhile, hc]

/-- Fuel-driven worker for `collapseWsRuns` (each step consumes at least
one character, so `length + 1` fuel always suffices). -/
def collapseWsF : Nat → List Char → List Char
  | 0, l => l
  | _ + 1, [] => []
  | _ + 1, [c] => if c = '\t' then [' '] else [c]
  | fuel + 1, c :: d :: rest =>
    if c.isWhitespace && d.isWhitespace then
      ' ' :: collapseWsF fuel ((d :: rest).dropWhile Char.isWhitespace)
    else if c = '\t' then ' ' :: collapseWsF fuel (d :: rest)
    else c :: collapseWsF fuel (d :: rest)

/-- `re.sub(r"\s{2,}|\t", " ", ...)`: a maximal run of two or more
whitespace characters, or a lone tab, becomes a single space. -/
def collapseWsRuns (l : List Char) : List Char :=
  collapseWsF (l.length + 1) l

/-- `re.sub(r"\s,", "", ...)`: delete each whitespace-comma pair, scanning
left to right. -/
def removeWsComma : List Char → List Char
  | [] => []
  | [c] => [c]
  | a :: b :: rest =>
    if a.isWhitespace && (b == ',') then removeWsComma rest
    else a :: removeWsComma (b :: rest)

/-- `mailed\sto:` matches at this position. -/
def matchMailedAt (l : List Char) : Bool :=
  ("mailed".toList).isPrefixOf l &&
  (match l.drop 6 with
   | c :: rest2 => c.isWhitespace && ("to:".toList).isPrefixOf rest2
   | [] => false)

/-- End positions of every `mailed\sto:` match. -/
def mailedEnds : List Char → List Nat
  | [] => []
  | c :: rest =>
    (if matchMailedAt (c :: rest) then [10] else []) ++ (mailedEnds rest).map (· + 1)

/-- `re.sub(r"^.*mailed\sto:", "", ...)`: the greedy `.*` removes the prefix
through the last match (the input contains no `\n` at this point). -/
def dropThroughMailedTo (l : List Char) : List Char :=
  match (mailedEnds l).getLast? with
  | some e => l.drop e
  | none => l

/-- One docket-number truncation: `re.sub(f"{re.escape(dn)}.*$", "")`
removes from the first occurrence of the docket number to the end. -/
def truncOne (dn : String) (l : List Char) : List Char :=
  match findSubIdx dn.toList l with
  | some i => l.take i
  | none => l

/-- The per-docket-number truncations, applied in cache order. -/
def truncAll (dns : List String) (l : List Char) : List Char :=
  dns.foldl (fun acc dn => truncOne dn acc) l

/-- `re.sub(r",", "", part)`. -/
def removeCommas (s : String) : String :=
  String.mk (s.toList.filter (fun c => c != ','))

/-- The token loop of `_get_email_recipients_with_links` (lines 723-743);
the accumulator is kept in reverse so the Python `[-1]` mutations are head
operations. -/
def withLinksGo : List String → List Recipient → List Recipient
  | [], accRev => accRev
  | t :: ts, accRev =>
    if accRev.isEmpty && !(containsSub "@" t) then
      withLinksGo ts ({ name := t, email_addresses := [] } :: accRev)
    else
      let accRev1 := if accRev.isEmpty then [{ name := "", email_addresses := [] }] else accRev
      let last := headD accRev1 { name := "", email_addresses := [] }
      let rest := accRev1.tail
      if containsSub "@" t then
        withLinksGo ts ({ last with email_addresses := last.email_addresses ++ [removeCommas t] } :: rest)
      else if !last.email_addresses.isEmpty then
        withLinksGo ts ({ name := t, email_addresses := [] } :: accRev1)
      else
        withLinksGo ts ({ last with name := last.name ++ " " ++ t } :: rest)

/-- `_get_email_recipients_with_links` (lines 690-750).  The replacement
patterns are all built before any is applied, so a `None` cached docket
number raises (`re.escape(None)`) before any substitution. -/
def getEmailRecipientsWithLinks (dns : List (Option String)) (text : String) :
    Except PyError (List Recipient) :=
  if dns.any (fun d => d.isNone) then .error .typeError
  else
    let t1 := removeNewlines text.toList
    let t2 := collapseWsRuns t1
    let t3 := removeWsComma t2
    let t4 := dropThroughMailedTo t3
    let t5 := truncAll (dns.filterMap id) t4
    let tokens := (splitCh ' ' (pyStripL t5)).map String.mk
    .ok (((withLinksGo tokens []).reverse).filter (fun r => !r.email_addresses.isEmpty))

/-- `_get_email_recipients` (lines 752-774): strategy dispatch for HTML. -/
def getEmailRecipients (tree : HtmlTree) (appellate : Bool)
    (dns : List (Option String)) : Except PyError (List Recipient) :=
  if appellate then
    let recipient_lines := tree.recipientStrongLines
    let rl2 := if recipient_lines.isEmpty then tree.recipientFallbackLines else recipient_lines
    getEmailRecipientsWithLinks dns (String.mk (joinSep ' ' (rl2.map String.toList)))
  else if 0 < tree.recipientBLinkCount then
    getEmailRecipientsWithLinks dns tree.recipientBlockString
  else
    let recipient_lines := tree.recipientBLines
    let rl2 := if recipient_lines.isEmpty then tree.recipientFallbackLines else recipient_lines
    getEmailRecipientsWithLinks dns (String.mk (joinSep ' ' (rl2.map String.toList)))

/-- The name line for the recipient at line `i` (Python `splitlines[i - 1]`;
at `i = 0` the Python index `-1` is the last line). -/
def plainRecipName (lines : List (List Char)) (i : Nat) : List Char :=
  if i = 0 then lastD lines [] else lines.getD (i - 1) []

/-- Fuel-driven worker for `plainRecipGo` (`lines.length - i` steps remain,
so that much fuel is exact). -/
def plainRecipGoF (lines : List (List Char)) : Nat → Nat → List Recipient
  | 0, _ => []
  | fuel + 1, i =>
    if i < lines.length then
      let line := lines.getD i []
      let found :=
        if containsSubL ['@'] line then
          [{ email_addresses := (splitCh ',' line).map (fun p => cleanString (String.mk p)),
             name := cleanString (String.mk (plainRecipName lines i)) : Recipient }]
        else []
      if containsSubL ("Notice will be delivered".toList) line then found
      else found ++ plainRecipGoF lines fuel (i + 1)
    else []

/-- The line loop of `_get_email_recipients_plain` (lines 791-808):
recipients are collected from `@`-lines; scanning stops after a
"Notice will be delivered" line. -/
def plainRecipGo (lines : List (List Char)) (i : Nat) : List Recipient :=
  plainRecipGoF lines (lines.length - i) i

/-- `_get_email_recipients_plain` (lines 776-809).  The `(.*?)$` capture can
strip at most one trailing newline, which `splitlines` ignores anyway. -/
def getEmailRecipientsPlain (body : String) : List Recipient :=
  let bl := body.toList
  let marker := "Notice has been electronically mailed to:".toList
  match findSubIdx marker bl with
  | none => []
  | some i => plainRecipGo (pySplitLines (bl.drop (i + marker.length))) 0

/-! ### `data` (lines 66-85) -/

/-- `NotificationEmail.data`: the top-level parse.  The returned pair is the
output mapping (`none` models the empty mapping) and the instance state
after the evaluation (`data` mutates `self.appellate`, `self.case_names`
and `self.docket_numbers`). -/
def dataStep (s : NEState) : Except PyError (Option NotificationData × NEState) :=
  if s.is_valid = some false ∨ s.tree = none ∨ s.image_attached = true then .ok (none, s)
  else
    match s.tree with
    | none => .ok (none, s)
    | some tree =>
      let app := match s.appellate with
        | some b => b
        | none => isAppellateCompute tree
      let s1 := { s with appellate := some app }
      do
        let (ds, cns, dns) ←
          if s1.content_type = some "text/plain" then
            getDocketsPlain s1.court_id tree.textContent s1.subject app
              s1.is_bankruptcy tree.documentDescriptionFooterTexts
              s1.case_names s1.docket_numbers
          else
            getDocketsHtml s1.court_id tree s1.subject app s1.is_bankruptcy
              s1.case_names s1.docket_numbers
        let s2 := { s1 with case_names := cns, docket_numbers := dns }
        if s2.content_type = some "text/plain" then
          .ok (some { court_id := s2.court_id, appellate := app, dockets := ds,
                      contains_attachments := containsAttachmentsPlain tree.textContent,
                      email_recipients := getEmailRecipientsPlain tree.textContent }, s2)
        else do
          let recips ← getEmailRecipients tree app dns
          .ok (some { court_id := s2.court_id, appellate := app, dockets := ds,
                      contains_attachments := containsAttachments tree,
                      email_recipients := recips }, s2)

/-! ## Shared lemmas about the pipeline -/

theorem exceptBindOk (a : α) (f : α → Except ε β) :
    (Except.ok a >>= f) = f a := rfl

theorem exceptBindErr (e : ε) (f : α → Except ε β) :
    ((Except.error e : Except ε α) >>= f) = .error e := rfl

theorem attachPacerIds_document_number (app : Bool) (du cu : Option String)
    (e : DocketEntryR) :
    (attachPacerIds app du cu e).document_number = e.document_number := by
  unfold attachPacerIds
  cases du <;> cases cu <;> dsimp <;> split <;> simp_all <;> split <;> rfl

/-- Characterization of the plain-text `_get_docket_entries` branch when its
fallible steps succeed. -/
theorem getDocketEntriesPlain_eq
    (court body : String) (subject? : Option String) (cns : List String)
    (dns : List (Option String)) (app isBank : Bool) (footer : List String)
    (d : String) (dt : CalDate) (sd : String)
    (h1 : getDescriptionPlain court body = .ok d)
    (h2 : getDateFiled body = .ok dt)
    (h3 : getShortDescription subject? cns dns (some app) isBank court footer = .ok sd) :
    getDocketEntriesPlain court body subject? cns dns app isBank footer =
      .ok [attachPacerIds app (firstViewDocUrl body) (caseUrlPlain body)
        { date_filed := dt
          description := d
          short_description := sd
          document_url := firstViewDocUrl body
          document_number :=
            if getDocumentNumberPlain body = some "doc" then none
            else getDocumentNumberPlain body
          pacer_doc_id := none
          pacer_case_id := none
          pacer_seq_no := none
          pacer_magic_num := none }] := by
  unfold getDocketEntriesPlain
  rw [h1, exceptBindOk]
  simp only []
  rw [h2, exceptBindOk, h3, exceptBindOk]

/-- Characterization of the HTML `_get_docket_entries` branch when its
fallible steps succeed. -/
theorem getDocketEntriesHtml_eq
    (court : String) (tree : HtmlTree) (subject? : Option String)
    (cns : List String) (dns : List (Option String)) (app isBank : Bool)
    (table : DocketTable) (d : String) (n0 : Option String) (dt : CalDate)
    (sd : String)
    (h1 : getDescriptionHtml court app table = .ok d)
    (hn : (if app then Except.ok none else getDocumentNumberHtml table) = .ok n0)
    (h2 : getDateFiled tree.textContent = .ok dt)
    (h3 : getShortDescription subject? cns dns (some app) isBank court
      tree.documentDescriptionFooterTexts = .ok sd) :
    getDocketEntriesHtml court tree subject? cns dns app isBank table =
      .ok [attachPacerIds app (getDoc1Anchor app table) table.caseAnchorHref
        { date_filed := dt
          description := d
          short_description := sd
          document_url := getDoc1Anchor app table
          document_number := if n0 = some "doc" then none else n0
          pacer_doc_id := none
          pacer_case_id := none
          pacer_seq_no := none
          pacer_magic_num := none }] := by
  unfold getDocketEntriesHtml
  rw [h1, exceptBindOk]
  cases app with
  | false =>
    rw [if_neg (by simp)] at hn ⊢
    rw [hn]
    simp only [exceptBindOk, h2, h3]
  | true =>
    rw [if_pos rfl] at hn ⊢
    injection hn with hinj
    subst hinj
    simp only [exceptBindOk, h2, h3]

/-! ## Claims -/

/-- C4: for every message that is invalid — an image attachment was flagged,
the parse was marked not valid, or the document tree is null — `data`
returns the empty mapping (modelled as `none`), leaves the state untouched,
and raises no exception. -/
theorem c4_invalid_message_empty_mapping (s : NEState)
    (h : s.is_valid = some false ∨ s.tree = none ∨ s.image_attached = true) :
    dataStep s = .ok (none, s) := by
  unfold dataStep
  rw [if_pos h]

/-- Witness for C4 at a concrete invalid state (image attached). -/
theorem c4_invalid_message_empty_mapping_witness :
    dataStep (mkNotificationEmail "cacb" (some "text/plain") none
      (some { textContent := "x" }) (some true) true) =
      .ok (none, mkNotificationEmail "cacb" (some "text/plain") none
        (some { textContent := "x" }) (some true) true) :=
  c4_invalid_message_empty_mapping _ (Or.inr (Or.inr (by decide)))

/-- C10: `contains_attachments` is true exactly when strictly more than one
"Document description:" marker is present — in HTML, `strong` nodes
containing the marker; in plain text, marker lines inside the
"The following document(s) are associated with this transaction:" section —
and a message with exactly one such marker, or none, reports false. -/
theorem c10_contains_attachments_iff :
    (∀ tree : HtmlTree,
      containsAttachments tree = true ↔ 1 < tree.strongDocumentDescriptionCount) ∧
    (∀ body : String,
      containsAttachmentsPlain body = true ↔ 1 < plainAttachmentMarkerCount body) := by
  constructor
  · intro tree
    unfold containsAttachments
    by_cases h : tree.strongDocumentDescriptionCount ≤ 1
    · simp [h]
      try omega
    · simp [h]
      try omega
  · intro body
    unfold containsAttachmentsPlain
    simp [Nat.lt_iff_add_one_le]

/-- Concrete input for the C2 counterexample. -/
def c2Body : String :=
  "Case Name: A v. B\nCase Number: 1:2-cv-1\nDocument Number: No document attached\nDocket Text: Order filed on 11/02/2022 The following document"

/-- C2 counterexample: in the plain-text path a "Document Number:" line
reading "No document attached" is stored verbatim, not as null — the claim
that the plain path applies the HTML path's sentinel normalization is false
at this input. -/
theorem c2_counterexample :
    (match getDocketEntriesPlain "dcd" c2Body (some "subj") ["A v. B"]
        [some "1:2-cv-1"] false false [] with
     | .ok [e] => e.document_number
     | _ => none) = some "No document attached" := by
  decide

/-- C2 amended: the plain-text path stores the cleaned "Document Number:"
line text unchanged (null only when no such line exists); the only sentinel
nullified is the downstream literal "doc".  In particular "No document
attached" and the empty string are stored as-is, unlike the HTML path. -/
theorem c2_amended
    (court body : String) (subject? : Option String) (cns : List String)
    (dns : List (Option String)) (app isBank : Bool) (footer : List String)
    (d : String) (dt : CalDate) (sd : String)
    (h1 : getDescriptionPlain court body = .ok d)
    (h2 : getDateFiled body = .ok dt)
    (h3 : getShortDescription subject? cns dns (some app) isBank court footer = .ok sd) :
    ∃ e, getDocketEntriesPlain court body subject? cns dns app isBank footer = .ok [e] ∧
      e.document_number =
        (if getDocumentNumberPlain body = some "doc" then none
         else getDocumentNumberPlain body) := by
  refine ⟨_, getDocketEntriesPlain_eq court body subject? cns dns app isBank footer
    d dt sd h1 h2 h3, ?_⟩
  rw [attachPacerIds_document_number]

/-- Witness for C2 amended at the concrete counterexample input. -/
theorem c2_amended_witness :
    ∃ e, getDocketEntriesPlain "dcd" c2Body (some "subj") ["A v. B"]
        [some "1:2-cv-1"] false false [] = .ok [e] ∧
      e.document_number =
        (if getDocumentNumberPlain c2Body = some "doc" then none
         else getDocumentNumberPlain c2Body) :=
  c2_amended "dcd" c2Body (some "subj") ["A v. B"] [some "1:2-cv-1"] false false []
    "Order filed on 11/02/2022" ⟨11, 2, 2022⟩ "subj"
    (by decide) (by decide) (by decide)

/-- Concrete input for the C3 counterexample: a valid docket text but no
"filed on" pattern anywhere. -/
def c3Body : String :=
  "Case Name: A v. B\nDocket Text: Order The following document"

/-- C3 counterexample: with no "filed on" match the extraction raises the
bare `TypeError` from subscripting a failed `re.search` — an error that is
not descriptive and carries no court id (the `typeError` constructor has no
message field), refuting the claim that a descriptive error naming the court
id is raised. -/
theorem c3_counterexample :
    getDocketEntriesPlain "dcd" c3Body (some "subj") ["A v. B"] [none]
      false false [] = .error PyError.typeError := by
  decide

/-- C3 amended: when the cleaned full text contains no "filed on " match,
the docket-entry extraction raises a fatal error and never fabricates a
placeholder filing date, and in both branches — plain text, and HTML once
the filing-date lookup is reached (i.e. the docket-text lookup, and for
HTML the document-number lookup, succeeded; an absent "Document Number"
cell raises `IndexError` first) — the error is the generic `TypeError`
from `None[0]`, which is not descriptive and does not name the court id. -/
theorem c3_amended :
    (∀ (court body : String) (subject? : Option String) (cns : List String)
       (dns : List (Option String)) (app isBank : Bool) (footer : List String)
       (d : String),
       getDescriptionPlain court body = .ok d →
       findSubIdx ("filed on ".toList) (cleanStringL body.toList) = none →
       getDocketEntriesPlain court body subject? cns dns app isBank footer =
         .error PyError.typeError) ∧
    (∀ (court : String) (tree : HtmlTree) (subject? : Option String)
       (cns : List String) (dns : List (Option String)) (app isBank : Bool)
       (table : DocketTable) (d : String) (n0 : Option String),
       getDescriptionHtml court app table = .ok d →
       (if app then Except.ok none else getDocumentNumberHtml table) = .ok n0 →
       findSubIdx ("filed on ".toList) (cleanStringL tree.textContent.toList) =
         none →
       getDocketEntriesHtml court tree subject? cns dns app isBank table =
         .error PyError.typeError) := by
  constructor
  · intro court body subject? cns dns app isBank footer d h1 h2
    unfold getDocketEntriesPlain
    rw [h1, exceptBindOk]
    simp only []
    have hdate : getDateFiled body = .error PyError.typeError := by
      unfold getDateFiled
      simp only [h2]
    rw [hdate, exceptBindErr]
  · intro court tree subject? cns dns app isBank table d n0 h1 hn h2
    have hdate : getDateFiled tree.textContent = .error PyError.typeError := by
      unfold getDateFiled
      simp only [h2]
    unfold getDocketEntriesHtml
    rw [h1, exceptBindOk]
    cases app with
    | false =>
      rw [if_neg (by simp)] at hn ⊢
      rw [hn]
      simp only [exceptBindOk, hdate, exceptBindErr]
    | true =>
      rw [if_pos rfl] at hn ⊢
      injection hn with hinj
      subst hinj
      simp only [exceptBindOk, hdate, exceptBindErr]

/-- Witness for C3 amended: both conjuncts at concrete inputs (a plain-text
message and an HTML table/tree, each lacking the "filed on" pattern). -/
theorem c3_amended_witness :
    (getDocketEntriesPlain "cacb" "Docket Text: Reply electronically mailed to:"
      (some "s") ["X v. Y"] [some "1:1-bk-1"] false true [] =
      .error PyError.typeError) ∧
    (getDocketEntriesHtml "nysd" { textContent := "no filing date here" }
      (some "s") ["X v. Y"] [some "1:1-cv-1"] false false
      { documentNumberCellText := some "5",
        descriptionCandidates := [["HtmlDesc"]] } =
      .error PyError.typeError) :=
  ⟨c3_amended.1 "cacb" "Docket Text: Reply electronically mailed to:" (some "s")
    ["X v. Y"] [some "1:1-bk-1"] false true [] "Reply" (by decide) (by decide),
   c3_amended.2 "nysd" { textContent := "no filing date here" } (some "s")
    ["X v. Y"] [some "1:1-cv-1"] false false
    { documentNumberCellText := some "5",
      descriptionCandidates := [["HtmlDesc"]] }
    "HtmlDesc" (some "5") (by decide) (by decide) (by decide)⟩

/-- C7: whenever the extracted document number is the literal token "doc",
the stored `document_number` of the produced docket entry is null, in both
the plain-text and the (non-appellate) HTML paths, and the normalization
itself never fails: given the fallible extraction steps succeed, the entry
list is produced successfully. -/
theorem c7_doc_sentinel_nullified :
    (∀ (court body : String) (subject? : Option String) (cns : List String)
       (dns : List (Option String)) (app isBank : Bool) (footer : List String)
       (d : String) (dt : CalDate) (sd : String),
       getDescriptionPlain court body = .ok d →
       getDateFiled body = .ok dt →
       getShortDescription subject? cns dns (some app) isBank court footer = .ok sd →
       getDocumentNumberPlain body = some "doc" →
       ∃ e, getDocketEntriesPlain court body subject? cns dns app isBank footer =
          .ok [e] ∧ e.document_number = none) ∧
    (∀ (court : String) (tree : HtmlTree) (subject? : Option String)
       (cns : List String) (dns : List (Option String)) (isBank : Bool)
       (table : DocketTable) (d : String) (dt : CalDate) (sd : String),
       getDescriptionHtml court false table = .ok d →
       getDocumentNumberHtml table = .ok (some "doc") →
       getDateFiled tree.textContent = .ok dt →
       getShortDescription subject? cns dns (some false) isBank court
         tree.documentDescriptionFooterTexts = .ok sd →
       ∃ e, getDocketEntriesHtml court tree subject? cns dns false isBank table =
          .ok [e] ∧ e.document_number = none) := by
  constructor
  · intro court body subject? cns dns app isBank footer d dt sd h1 h2 h3 hnum
    refine ⟨_, getDocketEntriesPlain_eq court body subject? cns dns app isBank footer
      d dt sd h1 h2 h3, ?_⟩
    rw [attachPacerIds_document_number]
    simp [hnum]
  · intro court tree subject? cns dns isBank table d dt sd h1 hnum h2 h3
    refine ⟨_, getDocketEntriesHtml_eq court tree subject? cns dns false isBank table
      d (some "doc") dt sd h1 (by simpa using hnum) h2 h3, ?_⟩
    rw [attachPacerIds_document_number]
    simp

/-- Concrete input for the C7 witness (plain path). -/
def c7Body : String :=
  "Document Number: doc\nDocket Text: Order filed on 11/02/2022 The following document"

/-- Concrete inputs for the C7 witness (HTML path). -/
def c7Table : DocketTable :=
  { documentNumberCellText := some "doc 3", descriptionCandidates := [["HtmlDesc"]] }

/-- The tree for the C7 HTML witness. -/
def c7Tree : HtmlTree :=
  { textContent := "x filed on 11/02/2022" }

/-- Witness for C7 at concrete inputs on both paths. -/
theorem c7_doc_sentinel_nullified_witness :
    (∃ e, getDocketEntriesPlain "dcd" c7Body (some "subj") ["A v. B"]
        [some "1:2-cv-1"] false false [] = .ok [e] ∧ e.document_number = none) ∧
    (∃ e, getDocketEntriesHtml "dcd" c7Tree (some "subj") ["A v. B"]
        [some "1:2-cv-1"] false false c7Table = .ok [e] ∧ e.document_number = none) :=
  ⟨c7_doc_sentinel_nullified.1 "dcd" c7Body (some "subj") ["A v. B"]
      [some "1:2-cv-1"] false false [] "Order filed on 11/02/2022" ⟨11, 2, 2022⟩
      "subj" (by decide) (by decide) (by decide) (by decide),
    c7_doc_sentinel_nullified.2 "dcd" c7Tree (some "subj") ["A v. B"]
      [some "1:2-cv-1"] false c7Table "HtmlDesc" ⟨11, 2, 2022⟩ "subj"
      (by decide) (by decide) (by decide) (by decide)⟩

theorem isPrefixOfSelf (l : List Char) : l.isPrefixOf l = true := by
  induction l with
  | nil => rfl
  | cons c rest ih => simp [List.isPrefixOf, ih]

theorem findSubIdx_append_self (pat pre : List Char) :
    (findSubIdx pat (pre ++ pat)).isSome = true := by
  induction pre with
  | nil =>
    cases pat with
    | nil => simp [findSubIdx]
    | cons c rest => simp [findSubIdx, isPrefixOfSelf]
  | cons c pre ih =>
    simp only [List.cons_append, findSubIdx, List.append_eq]
    by_cases h : pat.isPrefixOf (c :: (pre ++ pat))
    · simp [h]
    · rw [if_neg h]
      cases hfi : findSubIdx pat (pre ++ pat) with
      | none => rw [hfi] at ih; cases ih
      | some i => simp

/-- A string is a substring of anything it is appended to. -/
theorem containsSub_append (pre suf : String) : containsSub suf (pre ++ suf) = true := by
  unfold containsSub
  simp only [String.toList, String.data_append]
  exact findSubIdx_append_self _ _

/-- C5: an appellate HTML message with more than one "Case Name:" table, and
a plain-text message with more than one "Case Name:" line match, both make
docket extraction raise `NotImplementedError` — a clearly named
not-yet-supported signal — whose message carries the court id, rather than
returning a partial result. -/
theorem c5_unsupported_multi_docket :
    (∀ (court : String) (tree : HtmlTree) (subject? : Option String)
       (isBank : Bool) (cns : List String) (dns : List (Option String)),
       1 < tree.docketTables.length →
       getDocketsHtml court tree subject? true isBank cns dns =
         .error (.notImplementedError (ndaMultiDocketMsg court)) ∧
       containsSub court (ndaMultiDocketMsg court) = true) ∧
    (∀ (court body : String) (subject? : Option String) (app isBank : Bool)
       (footer : List String) (cns : List String) (dns : List (Option String)),
       (captureLines "Case Name:" body).length > 1 →
       getDocketsPlain court body subject? app isBank footer cns dns =
         .error (.notImplementedError (plainMultiDocketMsg court)) ∧
       containsSub court (plainMultiDocketMsg court) = true) := by
  constructor
  · intro court tree subject? isBank cns dns h
    refine ⟨?_, containsSub_append
      "Received a potential multi-docket NDA notification. This is probably our chance to add support for it. court: " court⟩
    unfold getDocketsHtml
    rw [if_pos ⟨rfl, h⟩]
  · intro court body subject? app isBank footer cns dns h
    refine ⟨?_, containsSub_append
      "Received a potential multi-docket text/plain notification. This is probably our chance to add support for it. court: " court⟩
    unfold getDocketsPlain
    have hc : getCaseNamePlainRaw court body =
        .error (.notImplementedError (plainMultiDocketMsg court)) := by
      unfold getCaseNamePlainRaw
      rw [if_pos h]
    simp only [hc, exceptBindErr]

/-- Concrete tree for the C5 witness: two docket tables. -/
def c5Tree : HtmlTree :=
  { textContent := "Notice of Docket Activity",
    docketTables := [{}, {}] }

/-- Concrete body for the C5 witness: two "Case Name:" lines. -/
def c5Body : String :=
  "Case Name: A v. B\nCase Name: C v. D\n"

/-- Witness for C5 at concrete inputs on both paths. -/
theorem c5_unsupported_multi_docket_witness :
    (getDocketsHtml "ca2" c5Tree none true false [] [] =
       .error (.notImplementedError (ndaMultiDocketMsg "ca2")) ∧
     containsSub "ca2" (ndaMultiDocketMsg "ca2") = true) ∧
    (getDocketsPlain "nysd" c5Body none false false [] [] [] =
       .error (.notImplementedError (plainMultiDocketMsg "nysd")) ∧
     containsSub "nysd" (plainMultiDocketMsg "nysd") = true) :=
  ⟨c5_unsupported_multi_docket.1 "ca2" c5Tree none false [] [] (by decide),
   c5_unsupported_multi_docket.2 "nysd" c5Body none false false [] [] [] (by decide)⟩

/-- C6: for appellate messages the short description is the longer by
character count of the footer heuristic (underscores to spaces, the exact
value "Main document" treated as empty) and the subject heuristic (first
double-quoted substring after the case name); in particular footer
"Main document" with subject-quoted "Letter RECEIVED" yields
"Letter RECEIVED". -/
theorem c6_appellate_short_description_longer :
    (∀ (footerTexts : List String) (cn : String) (rest : List String)
       (subject r : String),
       parseAppellateShortDescription footerTexts (cn :: rest) subject = .ok r →
       (r = appellateFooterDesc footerTexts ∨ r = appellateSubjectDesc cn subject) ∧
       r.length = max (appellateFooterDesc footerTexts).length
         (appellateSubjectDesc cn subject).length) ∧
    parseAppellateShortDescription ["Main document"]
      ["New York State Telecommunicati v. James"]
      "21-1975 New York State Telecommunicati v. James \"Letter RECEIVED\"" =
      .ok "Letter RECEIVED" := by
  constructor
  · intro footerTexts cn rest subject r h
    unfold parseAppellateShortDescription at h
    simp only [List.head?_cons] at h
    by_cases hcn : cn = ""
    · rw [if_pos hcn] at h
      cases h
    · rw [if_neg hcn] at h
      injection h with hr
      by_cases hlen : (appellateFooterDesc footerTexts).length >
          (appellateSubjectDesc cn subject).length
      · rw [if_pos hlen] at hr
        subst hr
        refine ⟨Or.inl rfl, ?_⟩
        rw [Nat.max_def]
        split <;> omega
      · rw [if_neg hlen] at hr
        subst hr
        refine ⟨Or.inr rfl, ?_⟩
        rw [Nat.max_def]
        split <;> omega
  · decide

/-- Witness for C6: the general statement applied at the concrete instance
of the claim (discharging its hypothesis with the concrete computation). -/
theorem c6_appellate_short_description_longer_witness :
    ("Letter RECEIVED" = appellateFooterDesc ["Main document"] ∨
     "Letter RECEIVED" = appellateSubjectDesc
       "New York State Telecommunicati v. James"
       "21-1975 New York State Telecommunicati v. James \"Letter RECEIVED\"") ∧
    ("Letter RECEIVED" : String).length =
      max (appellateFooterDesc ["Main document"]).length
        (appellateSubjectDesc "New York State Telecommunicati v. James"
          "21-1975 New York State Telecommunicati v. James \"Letter RECEIVED\"").length :=
  c6_appellate_short_description_longer.1 ["Main document"]
    "New York State Telecommunicati v. James" []
    "21-1975 New York State Telecommunicati v. James \"Letter RECEIVED\""
    "Letter RECEIVED" c6_appellate_short_description_longer.2

theorem bind_ok_inv {ε α β : Type} {e : Except ε α} {f : α → Except ε β} {b : β}
    (h : (e >>= f) = .ok b) : ∃ a, e = .ok a ∧ f a = .ok b := by
  cases e with
  | error err => rw [exceptBindErr] at h; cases h
  | ok a => exact ⟨a, rfl, h⟩

/-- A successful `_get_docket_entries` (HTML branch) always yields exactly
one entry. -/
theorem getDocketEntriesHtml_singleton
    (court : String) (tree : HtmlTree) (subject? : Option String)
    (cns : List String) (dns : List (Option String)) (app isBank : Bool)
    (table : DocketTable) (es : List DocketEntryR)
    (h : getDocketEntriesHtml court tree subject? cns dns app isBank table = .ok es) :
    ∃ e, es = [e] := by
  unfold getDocketEntriesHtml at h
  obtain ⟨d, hd, h⟩ := bind_ok_inv h
  split at h <;>
  · obtain ⟨n0, hn0, h⟩ := bind_ok_inv h
    obtain ⟨dt, hdt, h⟩ := bind_ok_inv h
    obtain ⟨sd, hsd, h⟩ := bind_ok_inv h
    injection h with h
    exact ⟨_, h.symm⟩

/-- Every docket produced by the `_get_dockets` HTML loop has a singleton
entry list. -/
theorem docketLoopHtml_entries
    (court : String) (tree : HtmlTree) (subject? : Option String)
    (app isBank : Bool) :
    ∀ (tables : List DocketTable) (cns : List String)
      (dns : List (Option String)) (ds : List DocketR) (cns2 : List String)
      (dns2 : List (Option String)),
      docketLoopHtml court tree subject? app isBank tables cns dns =
        .ok (ds, cns2, dns2) →
      ∀ d ∈ ds, ∃ e, d.docket_entries = [e] := by
  intro tables
  induction tables with
  | nil =>
    intro cns dns ds cns2 dns2 h d hd
    unfold docketLoopHtml at h
    injection h with h
    injection h with h1 h2
    rw [← h1] at hd
    cases hd
  | cons table rest ih =>
    intro cns dns ds cns2 dns2 h d hd
    unfold docketLoopHtml at h
    obtain ⟨es, hes, h⟩ := bind_ok_inv h
    obtain ⟨p, hp, h⟩ := bind_ok_inv h
    obtain ⟨ds1, cns1, dns1⟩ := p
    injection h with h
    injection h with h1 h2
    rw [← h1] at hd
    rcases List.mem_cons.mp hd with hde | hdm
    · subst hde
      exact getDocketEntriesHtml_singleton _ _ _ _ _ _ _ _ _ hes
    · exact ih _ _ _ _ _ hp d hdm

/-- What the multi-docket overwrite loop guarantees: when every input docket
has a singleton entry list and the loop succeeds, the short-description
computation succeeded with some value `v` and every output docket's single
entry carries `v`, with the length preserved. -/
theorem applyOverwrite_spec (gsd : Except PyError String) :
    ∀ (ds ds2 : List DocketR), applyOverwrite gsd ds = .ok ds2 →
      (∀ d ∈ ds, ∃ e, d.docket_entries = [e]) →
      ds2.length = ds.length ∧
      ∀ d2 ∈ ds2, ∃ v e, gsd = .ok v ∧ d2.docket_entries = [e] ∧
        e.short_description = v := by
  intro ds
  induction ds with
  | nil =>
    intro ds2 h _
    unfold applyOverwrite at h
    injection h with h
    subst h
    exact ⟨rfl, by intro d2 hd2; cases hd2⟩
  | cons d ds ih =>
    intro ds2 h hfirst
    obtain ⟨e, he⟩ := hfirst d (List.mem_cons_self _ _)
    unfold applyOverwrite at h
    rw [if_neg (by simp [he])] at h
    obtain ⟨v, hv, h⟩ := bind_ok_inv h
    obtain ⟨rest, hrest, h⟩ := bind_ok_inv h
    injection h with h
    subst h
    obtain ⟨hlen, hmem⟩ := ih rest hrest (fun x hx => hfirst x (List.mem_cons_of_mem _ hx))
    refine ⟨by simp [hlen], ?_⟩
    intro d2 hd2
    rcases List.mem_cons.mp hd2 with hde | hdm
    · subst hde
      exact ⟨v, { e with short_description := v }, hv, by simp [he, setFirstShort], rfl⟩
    · exact hmem d2 hdm

/-- C8: whenever the HTML docket extractor produces more than one docket,
every docket's entry list is a single entry whose `short_description` is the
message-level short description computed (from the subject, at the final
cache state) by `_get_short_description`; no entry beyond the first of each
docket exists to receive it. -/
theorem c8_multi_docket_short_description
    (court : String) (tree : HtmlTree) (subject? : Option String)
    (app isBank : Bool) (cns0 : List String) (dns0 : List (Option String))
    (ds : List DocketR) (cns : List String) (dns : List (Option String))
    (h : getDocketsHtml court tree subject? app isBank cns0 dns0 = .ok (ds, cns, dns))
    (hlen : 1 < ds.length) :
    ∃ v, getShortDescription subject? cns dns (some app) isBank court
        tree.documentDescriptionFooterTexts = .ok v ∧
      ∀ d ∈ ds, ∃ e, d.docket_entries = [e] ∧ e.short_description = v := by
  unfold getDocketsHtml at h
  split at h
  · cases h
  · obtain ⟨p, hloop, h⟩ := bind_ok_inv h
    obtain ⟨ds0, cns0r, dns0r⟩ := p
    have hsing := docketLoopHtml_entries court tree subject? app isBank
      tree.docketTables cns0 dns0 ds0 cns0r dns0r hloop
    split at h
    next dsm cnsm dnsm heq =>
    injection heq with he1 he23
    injection he23 with he2 he3
    subst he1
    subst he2
    subst he3
    split at h
    case isTrue hgt =>
      obtain ⟨ds2, hov, h⟩ := bind_ok_inv h
      injection h with h1
      injection h1 with ha hbc
      injection hbc with hb hc
      rw [← ha, ← hb, ← hc]
      rw [← ha] at hlen
      obtain ⟨hlen2, hmem⟩ := applyOverwrite_spec _ _ _ hov hsing
      have hne : ds2 ≠ [] := by
        intro hnil
        rw [hnil] at hlen
        cases hlen
      obtain ⟨d0, hd0⟩ := List.exists_mem_of_ne_nil ds2 hne
      obtain ⟨v, e0, hv, _, _⟩ := hmem d0 hd0
      refine ⟨v, hv, ?_⟩
      intro d hd
      obtain ⟨v2, e, hv2, he, hs⟩ := hmem d hd
      rw [hv] at hv2
      injection hv2 with hveq
      exact ⟨e, he, by rw [hs, ← hveq]⟩
    case isFalse hle =>
      injection h with h1
      injection h1 with ha hbc
      subst ha
      exact absurd hlen hle

/-- First docket table for the C8 witness. -/
def c8Table1 : DocketTable :=
  { caseNameText := some "A v. B", caseNumberAnchorTexts := ["1:1-cv-1"],
    documentNumberCellText := some "5", descriptionCandidates := [["Desc one"]] }

/-- Second docket table for the C8 witness. -/
def c8Table2 : DocketTable :=
  { caseNameText := some "C v. D", caseNumberAnchorTexts := ["1:1-cv-2"],
    documentNumberCellText := some "6", descriptionCandidates := [["Desc two"]] }

/-- Two-docket tree for the C8 witness. -/
def c8Tree : HtmlTree :=
  { textContent := "filed on 11/02/2022", docketTables := [c8Table1, c8Table2] }

/-- First entry produced on `c8Tree`. -/
def c8Entry1 : DocketEntryR :=
  { date_filed := CalDate.mk 11 2 2022, description := "Desc one",
    short_description := "Letter", document_url := none,
    document_number := some "5", pacer_doc_id := none, pacer_case_id := none,
    pacer_seq_no := none, pacer_magic_num := none }

/-- Second entry produced on `c8Tree`. -/
def c8Entry2 : DocketEntryR :=
  { date_filed := CalDate.mk 11 2 2022, description := "Desc two",
    short_description := "Letter", document_url := none,
    document_number := some "6", pacer_doc_id := none, pacer_case_id := none,
    pacer_seq_no := none, pacer_magic_num := none }

/-- The dockets the extractor produces on `c8Tree` (both first entries carry
the message-level short description "Letter"). -/
def c8Dockets : List DocketR :=
  [{ case_name := "A v. B", docket_number := some "1:1-cv-1", date_filed := none,
     docket_entries := [c8Entry1] },
   { case_name := "C v. D", docket_number := some "1:1-cv-2", date_filed := none,
     docket_entries := [c8Entry2] }]

/-- Witness for C8 at the concrete two-docket message. -/
theorem c8_multi_docket_short_description_witness :
    ∃ v, getShortDescription (some "Stuff A v. B Letter") ["A v. B", "C v. D"]
        [some "1:1-cv-1", some "1:1-cv-2"] (some false) false "nysd"
        c8Tree.documentDescriptionFooterTexts = .ok v ∧
      ∀ d ∈ c8Dockets, ∃ e, d.docket_entries = [e] ∧ e.short_description = v :=
  c8_multi_docket_short_description "nysd" c8Tree (some "Stuff A v. B Letter")
    false false [] [] c8Dockets ["A v. B", "C v. D"]
    [some "1:1-cv-1", some "1:1-cv-2"] (by decide) (by decide)

/-! ## Lemmas about recipients (C9) -/

theorem mem_of_containsSub_singleton {c : Char} {l : List Char}
    (h : containsSubL [c] l = true) : c ∈ l := by
  induction l with
  | nil => simp [containsSubL, findSubIdx] at h
  | cons d rest ih =>
    unfold containsSubL findSubIdx at h
    by_cases hp : ([c]).isPrefixOf (d :: rest)
    · have : c = d := by
        simpa [List.isPrefixOf] using hp
      exact this ▸ List.mem_cons_self _ _
    · rw [if_neg hp] at h
      cases hfi : findSubIdx [c] rest with
      | none => rw [hfi] at h; cases h
      | some i =>
        exact List.mem_cons_of_mem _ (ih (by unfold containsSubL; rw [hfi]; rfl))

/-- `cleanStringL` preserves every non-whitespace character. -/
theorem mem_cleanStringL {c : Char} {l : List Char}
    (hmem : c ∈ l) (hws : c.isWhitespace = false) : c ∈ cleanStringL l :=
  mem_cleanish hmem hws

theorem cleanStringL_words {l : List Char} (h : cleanStringL l ≠ []) :
    splitCh ' ' (cleanStringL l) = wordsL l := by
  unfold cleanStringL joinSp at *
  apply splitCh_joinSep
  · intro w hw
    refine ⟨wordsL_ne_nil w hw, fun hmem => ?_⟩
    have := wordsL_no_ws w hw ' ' hmem
    simp [Char.isWhitespace] at this
  · intro hnil
    rw [hnil] at h
    exact h rfl

theorem wordsL_ne_nil_of_clean {l : List Char} (h : cleanStringL l ≠ []) :
    wordsL l ≠ [] := by
  intro hnil
  apply h
  unfold cleanStringL joinSp
  rw [hnil]
  rfl

theorem getLastD_mem : ∀ (l : List α) (d : α), l ≠ [] → l.getLastD d ∈ l := by
  intro l
  induction l with
  | nil => intro d h; exact absurd rfl h
  | cons a as ih =>
    intro d h
    cases as with
    | nil => simp [List.getLastD]
    | cons b bs =>
      have hmem := ih a (by simp)
      simp only [List.getLastD] at hmem ⊢
      exact List.mem_cons_of_mem _ hmem

theorem mk_ne_empty {l : List Char} (h : l ≠ []) : String.mk l ≠ "" := by
  intro he
  apply h
  have : (String.mk l).data = l := rfl
  rw [he] at this
  exact this.symm

theorem ne_empty_of_mem {c : Char} {s : String} (h : c ∈ s.toList) : s ≠ "" := by
  intro he
  rw [he] at h
  cases h

/-- The plain-line strategy: every produced recipient has a non-empty email
address. -/
theorem withoutLinks_addresses (recipient_lines : List String) (r : Recipient)
    (hr : r ∈ getEmailRecipientsWithoutLinks recipient_lines) :
    ∃ a ∈ r.email_addresses, a ≠ "" := by
  unfold getEmailRecipientsWithoutLinks at hr
  obtain ⟨line, hline, heq⟩ := List.mem_filterMap.mp hr
  by_cases hat : containsSub "@" line
  · rw [if_pos hat] at heq
    injection heq with heq
    subst heq
    have hat' : '@' ∈ line.toList := by
      apply mem_of_containsSub_singleton
      unfold containsSub at hat
      unfold containsSubL
      simpa using hat
    obtain ⟨part, hpart, hatp⟩ :=
      @mem_splitCh_of_mem '@' ',' line.toList hat' (by decide)
    have hatc : '@' ∈ (cleanString (String.mk part)).toList := by
      have : (cleanString (String.mk part)).toList = cleanStringL part := rfl
      rw [this]
      exact mem_cleanStringL hatp (by decide)
    have hcs : cleanString (String.mk part) ∈
        (splitCh ',' line.toList).map (fun p => cleanString (String.mk p)) :=
      List.mem_map_of_mem _ hpart
    cases hsp : (splitCh ',' line.toList).map (fun p => cleanString (String.mk p)) with
    | nil =>
      rw [hsp] at hcs
      cases hcs
    | cons c0 ctail =>
      rw [hsp] at hcs
      simp only [hsp, List.headD_cons, List.tail_cons]
      rcases List.mem_cons.mp hcs with hhead | htail
      · have hne : cleanStringL part ≠ [] := by
          intro hnil
          have hx : (cleanString (String.mk part)).toList = cleanStringL part := rfl
          rw [hx, hnil] at hatc
          cases hatc
        have hc0l : c0.toList = cleanStringL part := by
          rw [← hhead]
          rfl
        refine ⟨String.mk (lastD (splitCh ' ' c0.toList) []), List.mem_cons_self _ _, ?_⟩
        rw [show lastD (splitCh ' ' c0.toList) [] = (splitCh ' ' c0.toList).getLastD []
          from rfl, hc0l, cleanStringL_words hne]
        apply mk_ne_empty
        exact wordsL_ne_nil _ (getLastD_mem _ _ (wordsL_ne_nil_of_clean hne))
      · exact ⟨cleanString (String.mk part), List.mem_cons_of_mem _ htail,
          ne_empty_of_mem hatc⟩
  · rw [if_neg hat] at heq
    cases heq

theorem removeCommas_at {t : String} (h : '@' ∈ t.toList) :
    '@' ∈ (removeCommas t).toList := by
  have : (removeCommas t).toList = t.toList.filter (fun c => c != ',') := rfl
  rw [this]
  exact List.mem_filter.mpr ⟨h, by decide⟩

theorem headD_mem {l : List α} (h : l ≠ []) (d : α) : l.headD d ∈ l := by
  cases l with
  | nil => exact absurd rfl h
  | cons a as => simp

/-- Invariant of the `with_links` token loop: every address ever appended
contains an `@`. -/
theorem withLinksGo_invariant :
    ∀ (tokens : List String) (accRev : List Recipient),
      (∀ r ∈ accRev, ∀ a ∈ r.email_addresses, '@' ∈ a.toList) →
      ∀ r ∈ withLinksGo tokens accRev, ∀ a ∈ r.email_addresses, '@' ∈ a.toList := by
  intro tokens
  induction tokens with
  | nil =>
    intro accRev hinv r hr
    unfold withLinksGo at hr
    exact hinv r hr
  | cons t ts ih =>
    intro accRev hinv r hr
    unfold withLinksGo at hr
    by_cases h1 : (accRev.isEmpty && !(containsSub "@" t)) = true
    · rw [if_pos h1] at hr
      refine ih _ ?_ r hr
      intro r2 hr2 a ha
      rcases List.mem_cons.mp hr2 with hre | hrm
      · subst hre
        cases ha
      · exact hinv r2 hrm a ha
    · rw [if_neg h1] at hr
      have hinv1 : ∀ r2 ∈ (if accRev.isEmpty then
          [({ name := "", email_addresses := [] } : Recipient)] else accRev),
          ∀ a ∈ r2.email_addresses, '@' ∈ a.toList := by
        split
        · intro r2 hr2 a ha
          rcases List.mem_cons.mp hr2 with hre | hrm
          · subst hre
            cases ha
          · cases hrm
        · exact hinv
      have hne1 : (if accRev.isEmpty then
          [({ name := "", email_addresses := [] } : Recipient)] else accRev) ≠ [] := by
        split
        · simp
        · cases hacc : accRev with
          | nil => simp_all
          | cons x xs => simp
      have hlast : ∀ a ∈ (headD (if accRev.isEmpty then
          [({ name := "", email_addresses := [] } : Recipient)] else accRev)
            { name := "", email_addresses := [] }).email_addresses, '@' ∈ a.toList := by
        have hm : headD (if accRev.isEmpty then
            [({ name := "", email_addresses := [] } : Recipient)] else accRev)
              { name := "", email_addresses := [] } ∈ (if accRev.isEmpty then
            [({ name := "", email_addresses := [] } : Recipient)] else accRev) := by
          unfold headD
          exact headD_mem hne1 _
        exact hinv1 _ hm
      have htail : ∀ r2 ∈ (if accRev.isEmpty then
          [({ name := "", email_addresses := [] } : Recipient)] else accRev).tail,
          ∀ a ∈ r2.email_addresses, '@' ∈ a.toList :=
        fun r2 hr2 => hinv1 r2 (List.mem_of_mem_tail hr2)
      by_cases h2 : containsSub "@" t = true
      · rw [if_pos h2] at hr
        refine ih _ ?_ r hr
        intro r2 hr2 a ha
        rcases List.mem_cons.mp hr2 with hre | hrm
        · subst hre
          simp only [] at ha
          rcases List.mem_append.mp ha with hold | hnew
          · exact hlast a hold
          · have : a = removeCommas t := by simpa using hnew
            subst this
            apply removeCommas_at
            apply mem_of_containsSub_singleton
            unfold containsSub at h2
            unfold containsSubL
            simpa using h2
        · exact htail r2 hrm a ha
      · rw [if_neg h2] at hr
        by_cases h3 : (!(headD (if accRev.isEmpty then
            [({ name := "", email_addresses := [] } : Recipient)] else accRev)
              { name := "", email_addresses := [] }).email_addresses.isEmpty) = true
        · rw [if_pos h3] at hr
          refine ih _ ?_ r hr
          intro r2 hr2 a ha
          rcases List.mem_cons.mp hr2 with hre | hrm
          · subst hre
            cases ha
          · exact hinv1 r2 hrm a ha
        · rw [if_neg h3] at hr
          refine ih _ ?_ r hr
          intro r2 hr2 a ha
          rcases List.mem_cons.mp hr2 with hre | hrm
          · subst hre
            exact hlast a ha
          · exact htail r2 hrm a ha

/-- The link/token strategy: every kept recipient has a non-empty address. -/
theorem withLinks_addresses (dns : List (Option String)) (text : String)
    (rs : List Recipient) (h : getEmailRecipientsWithLinks dns text = .ok rs) :
    ∀ r ∈ rs, ∃ a ∈ r.email_addresses, a ≠ "" := by
  unfold getEmailRecipientsWithLinks at h
  split at h
  · cases h
  · injection h with h
    subst h
    intro r hr
    obtain ⟨hmem, hne⟩ := List.mem_filter.mp hr
    have hmem2 := List.mem_reverse.mp hmem
    have hall := withLinksGo_invariant _ [] (by intro r2 hr2; cases hr2) r hmem2
    have hne2 : r.email_addresses ≠ [] := by
      intro hnil
      simp [hnil] at hne
    cases hadr : r.email_addresses with
    | nil => exact absurd hadr hne2
    | cons a as =>
      refine ⟨a, List.mem_cons_self _ _, ?_⟩
      exact ne_empty_of_mem (hall a (by rw [hadr]; exact List.mem_cons_self _ _))

/-- The plain-text line strategy: every produced recipient has a non-empty
address. -/
theorem plainRecipGo_addresses (lines : List (List Char)) :
    ∀ (i : Nat) (r : Recipient), r ∈ plainRecipGo lines i →
      ∃ a ∈ r.email_addresses, a ≠ "" := by
  have key : ∀ (fuel i : Nat),
      ∀ r ∈ plainRecipGoF lines fuel i, ∃ a ∈ r.email_addresses, a ≠ "" := by
    intro fuel
    induction fuel with
    | zero =>
      intro i r hr
      cases hr
    | succ k ihk =>
      intro i r hr
      unfold plainRecipGoF at hr
      by_cases hi : i < lines.length
      case neg =>
        rw [if_neg hi] at hr
        cases hr
      rw [if_pos hi] at hr
      simp only [] at hr
      have hfound : ∀ r2 ∈ (if containsSubL ['@'] (lines.getD i []) then
          [({ email_addresses := (splitCh ',' (lines.getD i [])).map
                (fun p => cleanString (String.mk p)),
              name := cleanString (String.mk (plainRecipName lines i)) } : Recipient)]
          else []), ∃ a ∈ r2.email_addresses, a ≠ "" := by
        split
        next hat =>
          intro r2 hr2
          rcases List.mem_cons.mp hr2 with hre | hrm
          · subst hre
            have hat' : '@' ∈ lines.getD i [] := mem_of_containsSub_singleton hat
            obtain ⟨part, hpart, hatp⟩ :=
              @mem_splitCh_of_mem '@' ',' (lines.getD i []) hat' (by decide)
            have hatc : '@' ∈ (cleanString (String.mk part)).toList := by
              have : (cleanString (String.mk part)).toList = cleanStringL part := rfl
              rw [this]
              exact mem_cleanStringL hatp (by decide)
            exact ⟨cleanString (String.mk part), List.mem_map_of_mem _ hpart,
              ne_empty_of_mem hatc⟩
          · cases hrm
        · intro r2 hr2
          cases hr2
      split at hr
      · exact hfound r hr
      · rcases List.mem_append.mp hr with hf | hrec
        · exact hfound r hf
        · exact ihk (i + 1) r hrec
  intro i r hr
  exact key (lines.length - i) i r hr

/-- C9: under each of the three recipient-extraction strategies — plain-line
(`_get_emaiL_recipients_without_links`), link/token
(`_get_email_recipients_with_links`), and plain-text line-oriented
(`_get_email_recipients_plain`) — every returned `Recipient` has at least
one non-empty email address; recipients with no addresses are discarded. -/
theorem c9_recipient_addresses :
    (∀ (recipient_lines : List String) (r : Recipient),
       r ∈ getEmailRecipientsWithoutLinks recipient_lines →
       ∃ a ∈ r.email_addresses, a ≠ "") ∧
    (∀ (dns : List (Option String)) (text : String) (rs : List Recipient),
       getEmailRecipientsWithLinks dns text = .ok rs →
       ∀ r ∈ rs, ∃ a ∈ r.email_addresses, a ≠ "") ∧
    (∀ (body : String) (r : Recipient),
       r ∈ getEmailRecipientsPlain body → ∃ a ∈ r.email_addresses, a ≠ "") := by
  refine ⟨withoutLinks_addresses, withLinks_addresses, ?_⟩
  intro body r hr
  unfold getEmailRecipientsPlain at hr
  simp only [] at hr
  split at hr
  · cases hr
  · exact plainRecipGo_addresses _ _ r hr

/-- Witness for C9 at concrete inputs on all three strategies. -/
theorem c9_recipient_addresses_witness :
    (∃ a ∈ (Recipient.mk "Stephen B" ["sb@x.com", "sb2@y.com"]).email_addresses,
       a ≠ "") ∧
    (∃ a ∈ (Recipient.mk "John Q Adams" ["jqa@x.com", "jqa2@y.com"]).email_addresses,
       a ≠ "") ∧
    (∃ a ∈ (Recipient.mk "Mary L" ["ml@z.org"]).email_addresses, a ≠ "") :=
  ⟨c9_recipient_addresses.1 ["Stephen B sb@x.com, sb2@y.com"] _ (by decide),
   c9_recipient_addresses.2.1 [some "1:2-cv-1"]
     "Notice has been electronically mailed to: John Q Adams jqa@x.com, jqa2@y.com 1:2-cv-1 Filed"
     [Recipient.mk "John Q Adams" ["jqa@x.com", "jqa2@y.com"]] (by decide) _ (by decide),
   c9_recipient_addresses.2.2
     "x Notice has been electronically mailed to:\nMary L\nml@z.org\n" _ (by decide)⟩

/-! ## Lemmas about cache growth (C1) -/

/-- The subject-split loop gives the same result on a duplicated singleton
case-name cache. -/
theorem chooseSplit_dup (subject c : String) :
    chooseSplit subject [c, c] = chooseSplit subject [c] := by
  show (chooseSplitGo subject [c, c]).map some = (chooseSplitGo subject [c]).map some
  congr 1
  show (do
      let sp ← splitQ subject c
      if sp.length > 1 then Except.ok sp else chooseSplitGo subject [c]) =
    chooseSplitGo subject [c]
  cases hsq : splitQ subject c with
  | error e =>
    rw [exceptBindErr]
    unfold chooseSplitGo
    rw [hsq]
  | ok sp =>
    rw [exceptBindOk]
    by_cases hlen : sp.length > 1
    · rw [if_pos hlen]
      unfold chooseSplitGo
      rw [hsq]
    · rw [if_neg hlen]

/-- The appellate short-description parser reads only the first cached case
name. -/
theorem parseAppellate_head (footer : List String) (c : String)
    (rest rest2 : List String) (subject : String) :
    parseAppellateShortDescription footer (c :: rest) subject =
    parseAppellateShortDescription footer (c :: rest2) subject := rfl

/-- `_get_short_description` is insensitive to duplicating a singleton
case-name cache and to the docket-number cache when the message is not a
bankruptcy one. -/
theorem getShortDescription_dup (subject? : Option String) (c : String)
    (dnsA dnsB : List (Option String)) (app : Option Bool) (court : String)
    (footer : List String) :
    getShortDescription subject? [c, c] dnsA app false court footer =
    getShortDescription subject? [c] dnsB app false court footer := by
  cases subject? with
  | none => rfl
  | some subj0 =>
    unfold getShortDescription
    simp only []
    by_cases hs : subj0 = ""
    · rw [if_pos hs, if_pos hs]
    · rw [if_neg hs, if_neg hs]
      rw [chooseSplit_dup]
      cases hcs : chooseSplit (cleanString subj0) [c] with
      | error e => rfl
      | ok sp =>
        rw [exceptBindOk, exceptBindOk]
        by_cases happ : app = some true
        · simp only [happ, if_pos]
          rw [parseAppellate_head footer c [c] []]
        · simp only [if_neg happ, Bool.false_eq_true, if_false]

/-- The plain-text entry extractor is insensitive to the same duplication. -/
theorem getDocketEntriesPlain_dup (court body : String) (subject? : Option String)
    (c : String) (d : Option String) (app : Bool) (footer : List String) :
    getDocketEntriesPlain court body subject? [c, c] [d, d] app false footer =
    getDocketEntriesPlain court body subject? [c] [d] app false footer := by
  unfold getDocketEntriesPlain
  have hgsd := getShortDescription_dup subject? c [d, d] [d] (some app) court footer
  simp only [hgsd]

/-- Characterization of the plain-text `_get_dockets` branch when its
fallible steps succeed. -/
theorem getDocketsPlain_eq (court body : String) (subject? : Option String)
    (app isBank : Bool) (footer : List String) (cns : List String)
    (dns : List (Option String)) (rawCn : String) (es : List DocketEntryR)
    (hcn : getCaseNamePlainRaw court body = .ok rawCn)
    (hes : getDocketEntriesPlain court body subject? (cns ++ [cleanString rawCn])
      (dns ++ [getDocketNumberPlain body]) app isBank footer = .ok es) :
    getDocketsPlain court body subject? app isBank footer cns dns =
      .ok ([{ case_name := cleanString (harmonize rawCn),
              docket_number := getDocketNumberPlain body,
              date_filed := none,
              docket_entries := es }],
        cns ++ [cleanString rawCn], dns ++ [getDocketNumberPlain body]) := by
  unfold getDocketsPlain
  rw [hcn]
  simp only [exceptBindOk]
  rw [hes]
  simp only [exceptBindOk]

/-- Inversion of a successful plain-text `_get_dockets`. -/
theorem getDocketsPlain_inv (court body : String) (subject? : Option String)
    (app isBank : Bool) (footer : List String) (cns : List String)
    (dns : List (Option String)) (ds : List DocketR) (cns2 : List String)
    (dns2 : List (Option String))
    (h : getDocketsPlain court body subject? app isBank footer cns dns =
      .ok (ds, cns2, dns2)) :
    ∃ rawCn es,
      getCaseNamePlainRaw court body = .ok rawCn ∧
      getDocketEntriesPlain court body subject? (cns ++ [cleanString rawCn])
        (dns ++ [getDocketNumberPlain body]) app isBank footer = .ok es ∧
      ds = [{ case_name := cleanString (harmonize rawCn),
              docket_number := getDocketNumberPlain body,
              date_filed := none,
              docket_entries := es }] ∧
      cns2 = cns ++ [cleanString rawCn] ∧
      dns2 = dns ++ [getDocketNumberPlain body] := by
  unfold getDocketsPlain at h
  obtain ⟨rawCn, hcn, h⟩ := bind_ok_inv h
  obtain ⟨es, hes, h⟩ := bind_ok_inv h
  injection h with h
  injection h with h1 h23
  injection h23 with h2 h3
  exact ⟨rawCn, es, hcn, hes, h1.symm, h2.symm, h3.symm⟩

/-! ## Idempotence machinery for the HTML branch (claim C1)

The second evaluation of `data` re-runs the pipeline with the caches
`self.case_names`/`self.docket_numbers` already holding the first run's
appended values.  The lemmas below show that for non-bankruptcy messages
the output is unchanged: the subject-split loop of
`_get_short_description` is stable under duplicating the cache, the
per-docket-number truncations of the recipient extractor are stable under
re-application, and the multi-docket overwrite erases the only field in
which the two runs can transiently differ. -/

theorem isPrefixOf_of_isPrefixOf_take {p : List Char} :
    ∀ {l : List Char} {k : Nat},
      p.isPrefixOf (l.take k) = true → p.isPrefixOf l = true := by
  induction p with
  | nil => intro l k _; cases l <;> rfl
  | cons a as ih =>
    intro l k h
    cases l with
    | nil => rw [List.take_nil] at h; exact h
    | cons c rest =>
      cases k with
      | zero => cases h
      | succ k =>
        have h' : (a == c && as.isPrefixOf (rest.take k)) = true := h
        simp only [Bool.and_eq_true] at h'
        show (a == c && as.isPrefixOf rest) = true
        simp only [Bool.and_eq_true]
        exact ⟨h'.1, ih h'.2⟩

theorem isPrefixOf_drop_take {p : List Char} {l : List Char} {k j : Nat}
    (h : p.isPrefixOf ((l.take k).drop j) = true) :
    p.isPrefixOf (l.drop j) = true := by
  rw [List.drop_take] at h
  exact isPrefixOf_of_isPrefixOf_take h

theorem findSubIdx_none_no_occ {p : List Char} :
    ∀ {l : List Char} {j : Nat}, findSubIdx p l = none →
      p.isPrefixOf (l.drop j) = false := by
  intro l
  induction l with
  | nil =>
    intro j h
    unfold findSubIdx at h
    split at h
    · cases h
    · next hp =>
      cases p with
      | nil => exact absurd rfl hp
      | cons a as => simp
  | cons c rest ih =>
    intro j h
    unfold findSubIdx at h
    split at h
    · cases h
    · next hp =>
      have hrest : findSubIdx p rest = none := by
        cases hfr : findSubIdx p rest with
        | none => rfl
        | some i => rw [hfr] at h; cases h
      cases j with
      | zero =>
        rw [List.drop_zero]
        exact Bool.eq_false_iff.mpr hp
      | succ j => exact ih hrest

theorem findSubIdx_some_no_occ_before {p : List Char} :
    ∀ {l : List Char} {i : Nat}, findSubIdx p l = some i →
      ∀ j, j < i → p.isPrefixOf (l.drop j) = false := by
  intro l
  induction l with
  | nil =>
    intro i h j hj
    unfold findSubIdx at h
    split at h
    · injection h with h
      omega
    · cases h
  | cons c rest ih =>
    intro i h j hj
    unfold findSubIdx at h
    split at h
    · injection h with h
      omega
    · next hp =>
      obtain ⟨i', hi', hadd⟩ := Option.map_eq_some'.mp h
      cases j with
      | zero =>
        rw [List.drop_zero]
        exact Bool.eq_false_iff.mpr hp
      | succ j => exact ih hi' j (by omega)

theorem findSubIdx_some_occ {p : List Char} :
    ∀ {l : List Char} {i : Nat}, findSubIdx p l = some i →
      p.isPrefixOf (l.drop i) = true := by
  intro l
  induction l with
  | nil =>
    intro i h
    unfold findSubIdx at h
    split at h
    · next hp =>
      injection h with h
      subst hp
      cases h
      rfl
    · cases h
  | cons c rest ih =>
    intro i h
    unfold findSubIdx at h
    split at h
    · next hp =>
      injection h with h
      subst h
      exact hp
    · obtain ⟨i', hi', hadd⟩ := Option.map_eq_some'.mp h
      subst hadd
      exact ih hi'

theorem findSubIdx_none_of_no_occ {p : List Char} :
    ∀ {l : List Char}, (∀ j, p.isPrefixOf (l.drop j) = false) →
      findSubIdx p l = none := by
  intro l
  induction l with
  | nil =>
    intro h
    have h0 := h 0
    unfold findSubIdx
    rw [if_neg]
    intro hp
    subst hp
    cases h0
  | cons c rest ih =>
    intro h
    have h0 : p.isPrefixOf (c :: rest) = false := by
      have := h 0
      rwa [List.drop_zero] at this
    unfold findSubIdx
    rw [if_neg (by simp [h0])]
    rw [ih (fun j => h (j + 1))]
    rfl

theorem findSubIdx_take_none {p l : List Char} {k : Nat}
    (h : findSubIdx p l = none) : findSubIdx p (l.take k) = none := by
  apply findSubIdx_none_of_no_occ
  intro j
  have hno : p.isPrefixOf (l.drop j) = false := findSubIdx_none_no_occ h
  cases hocc : p.isPrefixOf ((l.take k).drop j) with
  | false => rfl
  | true => rw [isPrefixOf_drop_take hocc] at hno; cases hno

theorem findSubIdx_self_take_none {p l : List Char} {i : Nat} (hp : p ≠ [])
    (h : findSubIdx p l = some i) : findSubIdx p (l.take i) = none := by
  apply findSubIdx_none_of_no_occ
  intro j
  by_cases hj : j < i
  · have hno := findSubIdx_some_no_occ_before h j hj
    cases hocc : p.isPrefixOf ((l.take i).drop j) with
    | false => rfl
    | true => rw [isPrefixOf_drop_take hocc] at hno; cases hno
  · have hlen : (l.take i).length ≤ j :=
      le_trans (List.length_take_le i l) (Nat.le_of_not_lt hj)
    rw [List.drop_eq_nil_of_le hlen]
    cases p with
    | nil => exact absurd rfl hp
    | cons a as => rfl

theorem findSubIdx_nil_pat (l : List Char) : findSubIdx [] l = some 0 := by
  cases l with
  | nil => rfl
  | cons c rest => rfl

theorem truncOne_of_none {dn : String} {l : List Char}
    (h : findSubIdx dn.toList l = none) : truncOne dn l = l := by
  unfold truncOne
  rw [h]

/-- Truncating at a docket number twice is the same as truncating once:
the prefix kept by the first truncation is free of the docket number. -/
theorem truncOne_idem (dn : String) (l : List Char) :
    truncOne dn (truncOne dn l) = truncOne dn l := by
  by_cases hp : dn.toList = []
  · have h1 : truncOne dn l = [] := by
      unfold truncOne
      rw [hp, findSubIdx_nil_pat]
      simp
    rw [h1]
    unfold truncOne
    rw [hp, findSubIdx_nil_pat]
    rfl
  · cases hf : findSubIdx dn.toList l with
    | none => rw [truncOne_of_none hf, truncOne_of_none hf]
    | some i =>
      have hTO : truncOne dn l = l.take i := by unfold truncOne; rw [hf]
      rw [hTO, truncOne_of_none (findSubIdx_self_take_none hp hf)]

/-- A fixed point of one truncation stays fixed on every prefix. -/
theorem truncOne_fix_take {dn : String} {l : List Char} {k : Nat}
    (h : truncOne dn l = l) : truncOne dn (l.take k) = l.take k := by
  by_cases hp : dn.toList = []
  · have h1 : truncOne dn l = [] := by
      unfold truncOne
      rw [hp, findSubIdx_nil_pat]
      simp
    have hl : l = [] := h.symm.trans h1
    subst hl
    rw [List.take_nil]
    exact h
  · cases hf : findSubIdx dn.toList l with
    | none => exact truncOne_of_none (findSubIdx_take_none hf)
    | some i =>
      exfalso
      have hTO : truncOne dn l = l.take i := by unfold truncOne; rw [hf]
      have h' : l.take i = l := hTO.symm.trans h
      have hocc := findSubIdx_some_occ hf
      have hlen : l.length ≤ i := by
        have hle := congrArg List.length h'
        rw [List.length_take] at hle
        omega
      rw [List.drop_eq_nil_of_le hlen] at hocc
      cases hpl : dn.toList with
      | nil => exact hp hpl
      | cons a as => rw [hpl] at hocc; cases hocc

/-- The truncation chain always returns a prefix of its input. -/
theorem truncAll_is_take (dns : List String) :
    ∀ (l : List Char), ∃ k, truncAll dns l = l.take k := by
  induction dns with
  | nil => intro l; exact ⟨l.length, by simp [truncAll, List.take_length]⟩
  | cons d rest ih =>
    intro l
    have hstep : truncAll (d :: rest) l = truncAll rest (truncOne d l) := rfl
    obtain ⟨k, hk⟩ := ih (truncOne d l)
    rw [hstep, hk]
    cases hf : findSubIdx d.toList l with
    | none =>
      have hTO : truncOne d l = l := truncOne_of_none hf
      rw [hTO]
      exact ⟨k, rfl⟩
    | some i =>
      have hTO : truncOne d l = l.take i := by unfold truncOne; rw [hf]
      rw [hTO, List.take_take]
      exact ⟨min k i, rfl⟩

/-- After a full truncation pass, every docket number of the pass has been
eliminated: re-truncating at any of them is the identity. -/
theorem truncOne_truncAll_stable :
    ∀ (dns : List String) (l : List Char) (d : String), d ∈ dns →
      truncOne d (truncAll dns l) = truncAll dns l := by
  intro dns
  induction dns with
  | nil => intro l d hd; cases hd
  | cons d0 rest ih =>
    intro l d hd
    have hstep : truncAll (d0 :: rest) l = truncAll rest (truncOne d0 l) := rfl
    rcases List.mem_cons.mp hd with h | h
    · subst h
      rw [hstep]
      obtain ⟨k, hk⟩ := truncAll_is_take rest (truncOne d l)
      rw [hk]
      exact truncOne_fix_take (truncOne_idem d l)
    · rw [hstep]
      exact ih (truncOne d0 l) d h

theorem truncAll_fix (dns : List String) :
    ∀ (x : List Char), (∀ d ∈ dns, truncOne d x = x) → truncAll dns x = x := by
  induction dns with
  | nil => intro x _; rfl
  | cons d0 rest ih =>
    intro x h
    have hstep : truncAll (d0 :: rest) x = truncAll rest (truncOne d0 x) := rfl
    rw [hstep, h d0 (List.mem_cons_self _ _)]
    exact ih x (fun d hd => h d (List.mem_cons_of_mem _ hd))

/-- Applying the truncation pass with a duplicated docket-number cache is
the same as applying it once. -/
theorem truncAll_dup (dns : List String) (l : List Char) :
    truncAll (dns ++ dns) l = truncAll dns l := by
  have happ : truncAll (dns ++ dns) l = truncAll dns (truncAll dns l) := by
    unfold truncAll
    rw [List.foldl_append]
  rw [happ]
  exact truncAll_fix dns (truncAll dns l)
    (fun d hd => truncOne_truncAll_stable dns l d hd)

/-- The linked-recipient extractor is insensitive to duplicating the
docket-number cache. -/
theorem getEmailRecipientsWithLinks_dup (dns : List (Option String))
    (text : String) :
    getEmailRecipientsWithLinks (dns ++ dns) text =
    getEmailRecipientsWithLinks dns text := by
  unfold getEmailRecipientsWithLinks
  simp only [List.any_append, Bool.or_self, List.filterMap_append, truncAll_dup]

/-- The HTML recipient dispatch is insensitive to duplicating the
docket-number cache. -/
theorem getEmailRecipients_dup (tree : HtmlTree) (app : Bool)
    (dns : List (Option String)) :
    getEmailRecipients tree app (dns ++ dns) = getEmailRecipients tree app dns := by
  unfold getEmailRecipients
  split_ifs <;> rw [getEmailRecipientsWithLinks_dup]

/-- If the subject-split loop errors on a prefix of the cache, it errors
identically on any extension. -/
theorem chooseSplitGo_append_error (subject : String) :
    ∀ (C X : List String) (e : PyError), C ≠ [] →
      chooseSplitGo subject C = .error e →
      chooseSplitGo subject (C ++ X) = .error e := by
  intro C
  induction C with
  | nil => intro X e hne _; exact absurd rfl hne
  | cons c rest ih =>
    intro X e _ h
    cases rest with
    | nil =>
      cases X with
      | nil => simpa using h
      | cons x xs =>
        show (do
            let sp ← splitQ subject c
            if sp.length > 1 then Except.ok sp
            else chooseSplitGo subject (x :: xs)) = .error e
        rw [show chooseSplitGo subject [c] = splitQ subject c from rfl] at h
        rw [h, exceptBindErr]
    | cons c2 rest2 =>
      rw [show chooseSplitGo subject (c :: c2 :: rest2) = (do
          let sp ← splitQ subject c
          if sp.length > 1 then Except.ok sp
          else chooseSplitGo subject (c2 :: rest2)) from rfl] at h
      show (do
          let sp ← splitQ subject c
          if sp.length > 1 then Except.ok sp
          else chooseSplitGo subject ((c2 :: rest2) ++ X)) = .error e
      cases hsq : splitQ subject c with
      | error e2 =>
        rw [hsq, exceptBindErr] at h
        rw [exceptBindErr]
        exact h
      | ok sp =>
        rw [hsq, exceptBindOk] at h
        rw [exceptBindOk]
        by_cases hlen : sp.length > 1
        · rw [if_pos hlen] at h; cases h
        · rw [if_neg hlen] at h
          rw [if_neg hlen]
          exact ih X e (by simp) h

/-- If some cache element divides the subject, the loop's result is
unchanged by extending the cache. -/
theorem chooseSplitGo_append_break (subject : String) :
    ∀ (C X : List String) (sp : List String),
      chooseSplitGo subject C = .ok sp → sp.length > 1 →
      chooseSplitGo subject (C ++ X) = .ok sp := by
  intro C
  induction C with
  | nil => intro X sp h _; cases h
  | cons c rest ih =>
    intro X sp h hlen
    cases rest with
    | nil =>
      cases X with
      | nil => simpa using h
      | cons x xs =>
        show (do
            let sp2 ← splitQ subject c
            if sp2.length > 1 then Except.ok sp2
            else chooseSplitGo subject (x :: xs)) = .ok sp
        rw [show chooseSplitGo subject [c] = splitQ subject c from rfl] at h
        rw [h, exceptBindOk, if_pos hlen]
    | cons c2 rest2 =>
      rw [show chooseSplitGo subject (c :: c2 :: rest2) = (do
          let sp2 ← splitQ subject c
          if sp2.length > 1 then Except.ok sp2
          else chooseSplitGo subject (c2 :: rest2)) from rfl] at h
      show (do
          let sp2 ← splitQ subject c
          if sp2.length > 1 then Except.ok sp2
          else chooseSplitGo subject ((c2 :: rest2) ++ X)) = .ok sp
      cases hsq : splitQ subject c with
      | error e2 => rw [hsq, exceptBindErr] at h; cases h
      | ok sp2 =>
        rw [hsq, exceptBindOk] at h
        rw [exceptBindOk]
        by_cases hl2 : sp2.length > 1
        · rw [if_pos hl2] at h
          rw [if_pos hl2]
          exact h
        · rw [if_neg hl2] at h
          rw [if_neg hl2]
          exact ih X sp h hlen

/-- If no cache element divides the subject (and none errors), the loop on
an extended cache is the loop on the extension. -/
theorem chooseSplitGo_append_pass (subject : String) :
    ∀ (C X : List String) (sp : List String),
      chooseSplitGo subject C = .ok sp → ¬ sp.length > 1 → X ≠ [] →
      chooseSplitGo subject (C ++ X) = chooseSplitGo subject X := by
  intro C
  induction C with
  | nil => intro X sp h _ _; cases h
  | cons c rest ih =>
    intro X sp h hlen hX
    cases rest with
    | nil =>
      cases X with
      | nil => exact absurd rfl hX
      | cons x xs =>
        show (do
            let sp2 ← splitQ subject c
            if sp2.length > 1 then Except.ok sp2
            else chooseSplitGo subject (x :: xs)) = chooseSplitGo subject (x :: xs)
        rw [show chooseSplitGo subject [c] = splitQ subject c from rfl] at h
        rw [h, exceptBindOk, if_neg hlen]
    | cons c2 rest2 =>
      rw [show chooseSplitGo subject (c :: c2 :: rest2) = (do
          let sp2 ← splitQ subject c
          if sp2.length > 1 then Except.ok sp2
          else chooseSplitGo subject (c2 :: rest2)) from rfl] at h
      show (do
          let sp2 ← splitQ subject c
          if sp2.length > 1 then Except.ok sp2
          else chooseSplitGo subject ((c2 :: rest2) ++ X)) = chooseSplitGo subject X
      cases hsq : splitQ subject c with
      | error e2 => rw [hsq, exceptBindErr] at h; cases h
      | ok sp2 =>
        rw [hsq, exceptBindOk] at h
        rw [exceptBindOk]
        by_cases hl2 : sp2.length > 1
        · rw [if_pos hl2] at h
          injection h with h
          subst h
          exact absurd hl2 hlen
        · rw [if_neg hl2] at h
          rw [if_neg hl2]
          exact ih X sp h hlen hX

theorem chooseSplit_cons (subject c : String) (rest : List String) :
    chooseSplit subject (c :: rest) =
      (chooseSplitGo subject (c :: rest)).map some := rfl

/-- The subject split chosen at a duplicated non-empty cache equals the one
chosen at the cache itself. -/
theorem chooseSplit_dupL (subject : String) (C : List String) (hC : C ≠ []) :
    chooseSplit subject (C ++ C) = chooseSplit subject C := by
  cases C with
  | nil => exact absurd rfl hC
  | cons c rest =>
    rw [show ((c :: rest) ++ (c :: rest) : List String) =
        c :: (rest ++ c :: rest) from rfl]
    rw [chooseSplit_cons, chooseSplit_cons]
    have hgo : chooseSplitGo subject (c :: (rest ++ c :: rest)) =
        chooseSplitGo subject (c :: rest) := by
      have hform : (c :: (rest ++ c :: rest) : List String) =
          (c :: rest) ++ (c :: rest) := by simp
      rw [hform]
      cases hg : chooseSplitGo subject (c :: rest) with
      | error e =>
        exact chooseSplitGo_append_error subject (c :: rest) (c :: rest) e
          (by simp) hg
      | ok sp =>
        by_cases hlen : sp.length > 1
        · rw [chooseSplitGo_append_break subject (c :: rest) (c :: rest) sp hg hlen]
        · rw [chooseSplitGo_append_pass subject (c :: rest) (c :: rest) sp hg
            hlen (by simp)]
          exact hg
    rw [hgo]

/-- `_get_short_description` at a duplicated non-empty case-name cache (and
any docket-number cache) agrees with its value at the cache itself, for
non-bankruptcy messages. -/
theorem getShortDescription_dupL (subject? : Option String) (C : List String)
    (hC : C ≠ []) (dnsA dnsB : List (Option String)) (app : Option Bool)
    (court : String) (footer : List String) :
    getShortDescription subject? (C ++ C) dnsA app false court footer =
    getShortDescription subject? C dnsB app false court footer := by
  cases subject? with
  | none => rfl
  | some subj0 =>
    unfold getShortDescription
    simp only []
    by_cases hs : subj0 = ""
    · rw [if_pos hs, if_pos hs]
    · rw [if_neg hs, if_neg hs]
      rw [chooseSplit_dupL _ _ hC]
      cases hcs : chooseSplit (cleanString subj0) C with
      | error e => rfl
      | ok sp =>
        rw [exceptBindOk, exceptBindOk]
        by_cases happ : app = some true
        · simp only [happ, if_pos]
          cases C with
          | nil => exact absurd rfl hC
          | cons c rest =>
            rw [show ((c :: rest) ++ (c :: rest) : List String) =
                c :: (rest ++ c :: rest) from rfl]
            rw [parseAppellate_head footer c (rest ++ c :: rest) rest]
        · simp only [if_neg happ, Bool.false_eq_true, if_false]

/-- If `_get_short_description` succeeds both at a non-empty cache `C` and
at a non-empty cache `Y`, it succeeds at `C ++ Y` (non-bankruptcy; the
docket-number cache is irrelevant there). -/
theorem getShortDescription_prepend_ok (subject? : Option String)
    (C Y : List String) (hC : C ≠ []) (hY : Y ≠ [])
    (dC dY dB : List (Option String)) (app : Option Bool) (court : String)
    (footer : List String) (vC vY : String)
    (h1 : getShortDescription subject? C dC app false court footer = .ok vC)
    (h2 : getShortDescription subject? Y dY app false court footer = .ok vY) :
    ∃ v, getShortDescription subject? (C ++ Y) dB app false court footer =
      .ok v := by
  cases subject? with
  | none => exact ⟨"", rfl⟩
  | some subj0 =>
    by_cases hs : subj0 = ""
    · refine ⟨"", ?_⟩
      unfold getShortDescription
      simp only []
      rw [if_pos hs]
    · unfold getShortDescription at h1 h2
      simp only [] at h1 h2
      rw [if_neg hs] at h1 h2
      cases C with
      | nil => exact absurd rfl hC
      | cons c Cr =>
        cases Y with
        | nil => exact absurd rfl hY
        | cons y Yr =>
          obtain ⟨sp1?, hcs1, h1⟩ := bind_ok_inv h1
          obtain ⟨sp2?, hcs2, _⟩ := bind_ok_inv h2
          rw [chooseSplit_cons] at hcs1 hcs2
          have hgo1 : ∃ spC, chooseSplitGo (cleanString subj0) (c :: Cr) =
              .ok spC := by
            cases hg : chooseSplitGo (cleanString subj0) (c :: Cr) with
            | error e => rw [hg] at hcs1; cases hcs1
            | ok spC => exact ⟨spC, rfl⟩
          have hgo2 : ∃ spY, chooseSplitGo (cleanString subj0) (y :: Yr) =
              .ok spY := by
            cases hg : chooseSplitGo (cleanString subj0) (y :: Yr) with
            | error e => rw [hg] at hcs2; cases hcs2
            | ok spY => exact ⟨spY, rfl⟩
          obtain ⟨spC, hgC'⟩ := hgo1
          obtain ⟨spY, hgY'⟩ := hgo2
          have hgoB : ∃ spB, chooseSplitGo (cleanString subj0)
              ((c :: Cr) ++ (y :: Yr)) = .ok spB := by
            by_cases hlen : spC.length > 1
            · exact ⟨spC, chooseSplitGo_append_break _ _ _ _ hgC' hlen⟩
            · refine ⟨spY, ?_⟩
              rw [chooseSplitGo_append_pass _ _ _ _ hgC' hlen (by simp)]
              exact hgY'
          obtain ⟨spB, hgB⟩ := hgoB
          by_cases happ : app = some true
          · rw [if_pos happ] at h1
            obtain ⟨sd1, hsd1, _⟩ := bind_ok_inv h1
            refine ⟨cleanString sd1, ?_⟩
            unfold getShortDescription
            simp only []
            rw [if_neg hs]
            rw [show ((c :: Cr) ++ y :: Yr : List String) =
                c :: (Cr ++ y :: Yr) from rfl]
            rw [chooseSplit_cons]
            have hgB' : chooseSplitGo (cleanString subj0) (c :: (Cr ++ y :: Yr)) =
                .ok spB := by
              rw [show (c :: (Cr ++ y :: Yr) : List String) =
                  (c :: Cr) ++ (y :: Yr) from by simp]
              exact hgB
            rw [hgB']
            show ((Except.ok (some spB) : Except PyError (Option (List String))) >>=
              fun split? => _) = _
            rw [exceptBindOk, if_pos happ]
            rw [parseAppellate_head footer c (Cr ++ y :: Yr) Cr, hsd1,
              exceptBindOk]
          · refine ⟨cleanString (pyStrip (lastD spB "")), ?_⟩
            unfold getShortDescription
            simp only []
            rw [if_neg hs]
            rw [show ((c :: Cr) ++ y :: Yr : List String) =
                c :: (Cr ++ y :: Yr) from rfl]
            rw [chooseSplit_cons]
            have hgB' : chooseSplitGo (cleanString subj0) (c :: (Cr ++ y :: Yr)) =
                .ok spB := by
              rw [show (c :: (Cr ++ y :: Yr) : List String) =
                  (c :: Cr) ++ (y :: Yr) from by simp]
              exact hgB
            rw [hgB']
            show ((Except.ok (some spB) : Except PyError (Option (List String))) >>=
              fun split? => _) = _
            rw [exceptBindOk, if_neg happ]
            simp only [Bool.false_eq_true, if_false]
            rw [exceptBindOk]

/-- Full inversion of a successful HTML `_get_docket_entries`. -/
theorem getDocketEntriesHtml_inv
    (court : String) (tree : HtmlTree) (subject? : Option String)
    (cns : List String) (dns : List (Option String)) (app isBank : Bool)
    (table : DocketTable) (es : List DocketEntryR)
    (h : getDocketEntriesHtml court tree subject? cns dns app isBank table =
      .ok es) :
    ∃ d n0 dt sd,
      getDescriptionHtml court app table = .ok d ∧
      (if app then Except.ok none else getDocumentNumberHtml table) = .ok n0 ∧
      getDateFiled tree.textContent = .ok dt ∧
      getShortDescription subject? cns dns (some app) isBank court
        tree.documentDescriptionFooterTexts = .ok sd ∧
      es = [attachPacerIds app (getDoc1Anchor app table) table.caseAnchorHref
        { date_filed := dt, description := d, short_description := sd,
          document_url := getDoc1Anchor app table,
          document_number := if n0 = some "doc" then none else n0,
          pacer_doc_id := none, pacer_case_id := none, pacer_seq_no := none,
          pacer_magic_num := none }] := by
  unfold getDocketEntriesHtml at h
  obtain ⟨d, hd, h⟩ := bind_ok_inv h
  split at h
  · next happ =>
    obtain ⟨n0, hn0, h⟩ := bind_ok_inv h
    obtain ⟨dt, hdt, h⟩ := bind_ok_inv h
    obtain ⟨sd, hsd, h⟩ := bind_ok_inv h
    injection h with h
    exact ⟨d, n0, dt, sd, hd, by rw [if_pos happ]; exact hn0, hdt, hsd, h.symm⟩
  · next happ =>
    obtain ⟨n0, hn0, h⟩ := bind_ok_inv h
    obtain ⟨dt, hdt, h⟩ := bind_ok_inv h
    obtain ⟨sd, hsd, h⟩ := bind_ok_inv h
    injection h with h
    exact ⟨d, n0, dt, sd, hd, by rw [if_neg happ]; exact hn0, hdt, hsd, h.symm⟩

/-- Forward construction of one step of the `_get_dockets` HTML loop. -/
theorem docketLoopHtml_cons (court : String) (tree : HtmlTree)
    (subject? : Option String) (app isBank : Bool) (table : DocketTable)
    (rest : List DocketTable) (cns : List String) (dns : List (Option String))
    (es : List DocketEntryR) (ds : List DocketR) (cns2 : List String)
    (dns2 : List (Option String))
    (hes : getDocketEntriesHtml court tree subject?
      (cns ++ [(getCaseNameHtml table).2])
      (dns ++ [getDocketNumberHtml app table]) app isBank table = .ok es)
    (hrest : docketLoopHtml court tree subject? app isBank rest
      (cns ++ [(getCaseNameHtml table).2])
      (dns ++ [getDocketNumberHtml app table]) = .ok (ds, cns2, dns2)) :
    docketLoopHtml court tree subject? app isBank (table :: rest) cns dns =
      .ok ({ case_name := (getCaseNameHtml table).1,
             docket_number := getDocketNumberHtml app table,
             date_filed := none, docket_entries := es } :: ds, cns2, dns2) := by
  cases hgc : getCaseNameHtml table with
  | mk cn cc =>
    rw [hgc] at hes hrest
    unfold docketLoopHtml
    rw [hgc]
    simp only [] at hes hrest ⊢
    rw [hes]
    simp only [exceptBindOk]
    rw [hrest]
    simp only [exceptBindOk]

/-- Inversion of one step of the `_get_dockets` HTML loop. -/
theorem docketLoopHtml_cons_inv (court : String) (tree : HtmlTree)
    (subject? : Option String) (app isBank : Bool) (table : DocketTable)
    (rest : List DocketTable) (cns : List String) (dns : List (Option String))
    (ds : List DocketR) (cns2 : List String) (dns2 : List (Option String))
    (h : docketLoopHtml court tree subject? app isBank (table :: rest) cns dns =
      .ok (ds, cns2, dns2)) :
    ∃ es ds1,
      getDocketEntriesHtml court tree subject?
        (cns ++ [(getCaseNameHtml table).2])
        (dns ++ [getDocketNumberHtml app table]) app isBank table = .ok es ∧
      docketLoopHtml court tree subject? app isBank rest
        (cns ++ [(getCaseNameHtml table).2])
        (dns ++ [getDocketNumberHtml app table]) = .ok (ds1, cns2, dns2) ∧
      ds = { case_name := (getCaseNameHtml table).1,
             docket_number := getDocketNumberHtml app table,
             date_filed := none, docket_entries := es } :: ds1 := by
  cases hgc : getCaseNameHtml table with
  | mk cn cc =>
    unfold docketLoopHtml at h
    rw [hgc] at h
    simp only [] at h
    obtain ⟨es, hes, h⟩ := bind_ok_inv h
    obtain ⟨p, hp, h⟩ := bind_ok_inv h
    obtain ⟨ds1, c1, d1⟩ := p
    injection h with h
    injection h with h1 h23
    injection h23 with h2 h3
    subst h2
    subst h3
    refine ⟨es, ds1, ?_, ?_, ?_⟩
    · exact hes
    · exact hp
    · exact h1.symm

/-- Shape of a successful HTML loop run: one docket per table and one
appended cache element per table. -/
theorem docketLoopHtml_shape (court : String) (tree : HtmlTree)
    (subject? : Option String) (app isBank : Bool) :
    ∀ (tables : List DocketTable) (cns : List String)
      (dns : List (Option String)) (ds : List DocketR) (cns2 : List String)
      (dns2 : List (Option String)),
      docketLoopHtml court tree subject? app isBank tables cns dns =
        .ok (ds, cns2, dns2) →
      ds.length = tables.length ∧
      ∃ dc dd, cns2 = cns ++ dc ∧ dns2 = dns ++ dd ∧
        dc.length = tables.length ∧ dd.length = tables.length := by
  intro tables
  induction tables with
  | nil =>
    intro cns dns ds cns2 dns2 h
    unfold docketLoopHtml at h
    injection h with h
    injection h with h1 h23
    injection h23 with h2 h3
    subst h2
    subst h3
    exact ⟨by rw [← h1]; rfl, [], [], by simp, by simp, rfl, rfl⟩
  | cons table rest ih =>
    intro cns dns ds cns2 dns2 h
    obtain ⟨es, ds1, hes, hp, hds⟩ :=
      docketLoopHtml_cons_inv _ _ _ _ _ _ _ _ _ _ _ _ h
    obtain ⟨hlen, dc, dd, hc, hd, hdc, hdd⟩ := ih _ _ _ _ _ hp
    subst hds
    refine ⟨by simp [hlen], (getCaseNameHtml table).2 :: dc,
      getDocketNumberHtml app table :: dd, ?_, ?_, by simp [hdc], by simp [hdd]⟩
    · rw [hc, List.append_assoc]
      rfl
    · rw [hd, List.append_assoc]
      rfl

/-- Two docket entries that agree on every field except possibly the short
description. -/
def entryModShort (eA eB : DocketEntryR) : Prop :=
  eB = { eA with short_description := eB.short_description }

/-- Two dockets that agree everywhere except possibly the (single) entry's
short description. -/
def docketModShort (dA dB : DocketR) : Prop :=
  dB.case_name = dA.case_name ∧ dB.docket_number = dA.docket_number ∧
  dB.date_filed = dA.date_filed ∧
  ∃ eA eB, dA.docket_entries = [eA] ∧ dB.docket_entries = [eB] ∧
    entryModShort eA eB

/-- `_attach_pacer_ids_to_docket_entry` commutes with overwriting the short
description (it never reads or writes that field). -/
theorem attachPacerIds_short_update (app : Bool) (du cu : Option String)
    (e : DocketEntryR) (s : String) :
    attachPacerIds app du cu { e with short_description := s } =
    { attachPacerIds app du cu e with short_description := s } := by
  obtain ⟨f1, f2, f3, f4, f5, f6, f7, f8, f9⟩ := e
  cases du <;> cases cu <;> cases app <;> cases f7 <;>
    simp [attachPacerIds, getPacerCaseIdFromDoc1Url] <;>
    (try split) <;> rfl

/-- The multi-docket overwrite at a successfully recomputed short
description: every (singleton) entry list has its entry's short description
replaced. -/
theorem applyOverwrite_ok (v : String) :
    ∀ (ds : List DocketR), (∀ d ∈ ds, ∃ e, d.docket_entries = [e]) →
      applyOverwrite (.ok v) ds =
        .ok (ds.map (fun d =>
          { d with docket_entries := setFirstShort v d.docket_entries })) := by
  intro ds
  induction ds with
  | nil => intro _; rfl
  | cons d rest ih =>
    intro h
    obtain ⟨e, he⟩ := h d (List.mem_cons_self _ _)
    unfold applyOverwrite
    rw [if_neg (by simp [he])]
    rw [exceptBindOk, ih (fun x hx => h x (List.mem_cons_of_mem _ hx)),
      exceptBindOk]
    rfl

/-- Overwriting the short descriptions of two mod-short-equal docket lists
with the same value yields equal lists. -/
theorem mapShort_modShort (v : String) :
    ∀ (dsA dsB : List DocketR), List.Forall₂ docketModShort dsA dsB →
      dsA.map (fun d =>
        { d with docket_entries := setFirstShort v d.docket_entries }) =
      dsB.map (fun d =>
        { d with docket_entries := setFirstShort v d.docket_entries }) := by
  intro dsA
  induction dsA with
  | nil => intro dsB h; cases h; rfl
  | cons dA restA ih =>
    intro dsB h
    cases h with
    | cons hd ht =>
      next dB restB =>
        obtain ⟨h1, h2, h3, eA, eB, heA, heB, hmod⟩ := hd
        simp only [List.map]
        rw [ih restB ht]
        obtain ⟨cnA, dnA, dfA, deA⟩ := dA
        obtain ⟨cnB, dnB, dfB, deB⟩ := dB
        simp only [] at h1 h2 h3 heA heB
        subst h1
        subst h2
        subst h3
        subst heA
        subst heB
        unfold entryModShort at hmod
        simp only [setFirstShort]
        rw [hmod]

/-- Every docket produced by the loop on a mod-short list has a singleton
entry list. -/
theorem modShort_singletons (dsA dsB : List DocketR)
    (h : List.Forall₂ docketModShort dsA dsB) :
    ∀ d ∈ dsB, ∃ e, d.docket_entries = [e] := by
  induction h with
  | nil => intro d hd; cases hd
  | cons hd ht ih =>
    intro d hdm
    rcases List.mem_cons.mp hdm with he | hm
    · subst he
      obtain ⟨_, _, _, eA, eB, _, heB, _⟩ := hd
      exact ⟨eB, heB⟩
    · exact ih d hm

/-- Lockstep lemma: re-running the `_get_dockets` HTML loop with the first
run's final caches prepended succeeds, appends the same per-table cache
values, and produces dockets that can differ only in the entries' short
descriptions. -/
theorem docketLoopHtml_prepend (court : String) (tree : HtmlTree)
    (subject? : Option String) (app : Bool) (C : List String)
    (D : List (Option String)) (hC : C ≠ []) (vC : String)
    (dC : List (Option String))
    (hgC : getShortDescription subject? C dC (some app) false court
      tree.documentDescriptionFooterTexts = .ok vC) :
    ∀ (tables : List DocketTable) (X : List String) (dX : List (Option String))
      (dsA : List DocketR) (X2 : List String) (dX2 : List (Option String)),
      docketLoopHtml court tree subject? app false tables X dX =
        .ok (dsA, X2, dX2) →
      ∃ dsB,
        docketLoopHtml court tree subject? app false tables (C ++ X) (D ++ dX) =
          .ok (dsB, C ++ X2, D ++ dX2) ∧
        List.Forall₂ docketModShort dsA dsB := by
  intro tables
  induction tables with
  | nil =>
    intro X dX dsA X2 dX2 h
    unfold docketLoopHtml at h
    injection h with h
    injection h with h1 h23
    injection h23 with h2 h3
    subst h2
    subst h3
    exact ⟨[], by unfold docketLoopHtml; rfl, by rw [← h1]; exact List.Forall₂.nil⟩
  | cons table rest ih =>
    intro X dX dsA X2 dX2 h
    obtain ⟨esA, ds1, hesA, hp, hds⟩ :=
      docketLoopHtml_cons_inv _ _ _ _ _ _ _ _ _ _ _ _ h
    obtain ⟨d0, n0, dt0, sdA, hdesc, hnum, hdate, hgsdA, hesEq⟩ :=
      getDocketEntriesHtml_inv _ _ _ _ _ _ _ _ _ hesA
    obtain ⟨sdB, hgsdB⟩ := getShortDescription_prepend_ok subject? C
      (X ++ [(getCaseNameHtml table).2]) hC (by simp) dC
      (dX ++ [getDocketNumberHtml app table])
      ((D ++ dX) ++ [getDocketNumberHtml app table]) (some app) court
      tree.documentDescriptionFooterTexts vC sdA hgC hgsdA
    have hesB := getDocketEntriesHtml_eq court tree subject?
      ((C ++ X) ++ [(getCaseNameHtml table).2])
      ((D ++ dX) ++ [getDocketNumberHtml app table]) app false table
      d0 n0 dt0 sdB hdesc hnum hdate
      (by rw [List.append_assoc]; exact hgsdB)
    obtain ⟨dsB1, hloopB, hmod⟩ := ih (X ++ [(getCaseNameHtml table).2])
      (dX ++ [getDocketNumberHtml app table]) ds1 X2 dX2 hp
    have key : attachPacerIds app (getDoc1Anchor app table) table.caseAnchorHref
        { date_filed := dt0, description := d0, short_description := sdB,
          document_url := getDoc1Anchor app table,
          document_number := if n0 = some "doc" then none else n0,
          pacer_doc_id := none, pacer_case_id := none, pacer_seq_no := none,
          pacer_magic_num := none } =
        { attachPacerIds app (getDoc1Anchor app table) table.caseAnchorHref
            { date_filed := dt0, description := d0, short_description := sdA,
              document_url := getDoc1Anchor app table,
              document_number := if n0 = some "doc" then none else n0,
              pacer_doc_id := none, pacer_case_id := none, pacer_seq_no := none,
              pacer_magic_num := none }
          with short_description := sdB } :=
      attachPacerIds_short_update app (getDoc1Anchor app table)
        table.caseAnchorHref
        { date_filed := dt0, description := d0, short_description := sdA,
          document_url := getDoc1Anchor app table,
          document_number := if n0 = some "doc" then none else n0,
          pacer_doc_id := none, pacer_case_id := none, pacer_seq_no := none,
          pacer_magic_num := none } sdB
    refine ⟨_, docketLoopHtml_cons court tree subject? app false table rest
      (C ++ X) (D ++ dX) _ dsB1 (C ++ X2) (D ++ dX2) hesB
      (by rw [List.append_assoc, List.append_assoc]; exact hloopB), ?_⟩
    subst hds
    refine List.Forall₂.cons ?_ hmod
    refine ⟨rfl, rfl, rfl, _, _, by rw [hesEq], rfl, ?_⟩
    unfold entryModShort
    rw [key]

/-- The HTML entry extractor is insensitive to duplicating a singleton
cache (non-bankruptcy). -/
theorem getDocketEntriesHtml_dup (court : String) (tree : HtmlTree)
    (subject? : Option String) (c : String) (d : Option String) (app : Bool)
    (table : DocketTable) :
    getDocketEntriesHtml court tree subject? [c, c] [d, d] app false table =
    getDocketEntriesHtml court tree subject? [c] [d] app false table := by
  unfold getDocketEntriesHtml
  have hgsd := getShortDescription_dup subject? c [d, d] [d] (some app) court
    tree.documentDescriptionFooterTexts
  simp only [hgsd]

/-- Re-running `_get_dockets` (HTML branch) from a fresh cache and then
again from the resulting cache yields the same dockets and doubles the
caches (non-bankruptcy). -/
theorem getDocketsHtml_idem (court : String) (tree : HtmlTree)
    (subject? : Option String) (app : Bool) (ds : List DocketR)
    (C : List String) (D : List (Option String))
    (h : getDocketsHtml court tree subject? app false [] [] = .ok (ds, C, D)) :
    getDocketsHtml court tree subject? app false C D =
      .ok (ds, C ++ C, D ++ D) := by
  unfold getDocketsHtml at h ⊢
  by_cases hg : app = true ∧ 1 < tree.docketTables.length
  · rw [if_pos hg] at h
    cases h
  · rw [if_neg hg] at h ⊢
    obtain ⟨p, hloop, h⟩ := bind_ok_inv h
    obtain ⟨ds0, C0, D0⟩ := p
    simp only [] at h
    by_cases hlen : 1 < ds0.length
    · -- multi-docket: the overwrite ran in the first run
      rw [if_pos hlen] at h
      obtain ⟨ds2, hov, h⟩ := bind_ok_inv h
      injection h with h
      injection h with h1 h23
      injection h23 with h2 h3
      subst h2
      subst h3
      have hsing := docketLoopHtml_entries court tree subject? app false
        tree.docketTables [] [] ds0 C0 D0 hloop
      obtain ⟨hov_len, hov_mem⟩ := applyOverwrite_spec _ ds0 ds2 hov hsing
      have hds2ne : ds2 ≠ [] := by
        intro hnil
        rw [hnil] at hov_len
        simp at hov_len
        omega
      obtain ⟨d2, hd2⟩ := List.exists_mem_of_ne_nil ds2 hds2ne
      obtain ⟨v, e2, hgv, _, _⟩ := hov_mem d2 hd2
      have hCne : C0 ≠ [] := by
        obtain ⟨hl0, dc, dd, hc, hd, hdc, hdd⟩ :=
          docketLoopHtml_shape court tree subject? app false
            tree.docketTables [] [] ds0 C0 D0 hloop
        intro hnil
        rw [hnil] at hc
        have : dc = [] := by simpa using hc.symm
        rw [this] at hdc
        simp only [List.length_nil] at hdc
        omega
      obtain ⟨dsB, hloopB, hmod⟩ := docketLoopHtml_prepend court tree subject?
        app C0 D0 hCne v D0 hgv tree.docketTables [] [] ds0 C0 D0 hloop
      simp only [List.append_nil] at hloopB
      rw [hloopB]
      simp only [exceptBindOk]
      have hlenB : 1 < dsB.length := by
        rw [← List.Forall₂.length_eq hmod]
        exact hlen
      rw [if_pos hlenB]
      have hgv2 : getShortDescription subject? (C0 ++ C0) (D0 ++ D0) (some app)
          false court tree.documentDescriptionFooterTexts = .ok v := by
        rw [getShortDescription_dupL subject? C0 hCne (D0 ++ D0) D0 (some app)
          court tree.documentDescriptionFooterTexts]
        exact hgv
      rw [hgv2]
      have hovA : applyOverwrite (Except.ok v) ds0 = .ok ds2 := by
        rw [← hgv]
        exact hov
      rw [applyOverwrite_ok v dsB (modShort_singletons ds0 dsB hmod)]
      rw [applyOverwrite_ok v ds0 hsing] at hovA
      injection hovA with hovA
      rw [← mapShort_modShort v ds0 dsB hmod, hovA]
      simp only [exceptBindOk]
      rw [← h1]
    · -- zero or one docket: no overwrite
      rw [if_neg hlen] at h
      injection h with h
      injection h with h1 h23
      injection h23 with h2 h3
      subst h2
      subst h3
      obtain ⟨hl0, dc, dd, hc, hd, hdc, hdd⟩ :=
        docketLoopHtml_shape court tree subject? app false
          tree.docketTables [] [] ds0 C0 D0 hloop
      cases htab : tree.docketTables with
      | nil =>
        rw [htab] at hloop
        unfold docketLoopHtml at hloop
        injection hloop with hloop
        injection hloop with hq1 hq23
        injection hq23 with hq2 hq3
        subst hq2
        subst hq3
        subst h1
        subst hq1
        rfl
      | cons t rest =>
        cases rest with
        | cons t2 rest2 =>
          exfalso
          rw [htab] at hl0
          simp at hl0
          omega
        | nil =>
          rw [htab] at hloop
          obtain ⟨es, ds1, hes, hp, hds⟩ :=
            docketLoopHtml_cons_inv _ _ _ _ _ _ _ _ _ _ _ _ hloop
          unfold docketLoopHtml at hp
          injection hp with hp
          injection hp with hp1 hp23
          injection hp23 with hp2 hp3
          simp only [List.nil_append] at hes hp2 hp3
          subst hp2
          subst hp3
          have hes2 : getDocketEntriesHtml court tree subject?
              ([(getCaseNameHtml t).2] ++ [(getCaseNameHtml t).2])
              ([getDocketNumberHtml app t] ++ [getDocketNumberHtml app t])
              app false t = .ok es := by
            have hdup := getDocketEntriesHtml_dup court tree subject?
              (getCaseNameHtml t).2 (getDocketNumberHtml app t) app t
            rw [show ([(getCaseNameHtml t).2] ++ [(getCaseNameHtml t).2] :
                List String) = [(getCaseNameHtml t).2, (getCaseNameHtml t).2]
                from rfl,
              show ([getDocketNumberHtml app t] ++ [getDocketNumberHtml app t] :
                List (Option String)) =
                [getDocketNumberHtml app t, getDocketNumberHtml app t] from rfl,
              hdup]
            exact hes
          have hconsB := docketLoopHtml_cons court tree subject? app false t []
            [(getCaseNameHtml t).2] [getDocketNumberHtml app t] es []
            ([(getCaseNameHtml t).2] ++ [(getCaseNameHtml t).2])
            ([getDocketNumberHtml app t] ++ [getDocketNumberHtml app t])
            hes2 (by unfold docketLoopHtml; rfl)
          rw [hconsB]
          simp only [exceptBindOk]
          rw [if_neg (by simp)]
          rw [← h1, hds, ← hp1]

/-- Concrete message for the C1 counterexample: a single-docket bankruptcy
plain-text notification for court `cacb`. -/
def c1Body : String :=
  "Case Name: A v. B\nCase Number: 1:1-bk-1-SY\nDocket Text: Order filed on 11/02/2022 The following document"

/-- The freshly constructed parser state for the C1 counterexample. -/
def c1State : NEState :=
  mkNotificationEmail "cacb" (some "text/plain") (some "1:1-bk-1-SY Request NEF")
    (some { textContent := c1Body }) (some true) false

/-- C1 counterexample: evaluating `data` a second time on the same parsed
message yields a different mapping — the cached docket numbers accumulate,
so the bankruptcy short-description parser sees a multi-docket cache and
degrades the short description to the empty string. -/
theorem c1_counterexample :
    ((dataStep c1State).toOption.map (fun p => p.1)) ≠
    (((dataStep c1State).toOption.bind (fun p => (dataStep p.2).toOption)).map
      (fun p => p.1)) := by
  decide

/-- C1 amended: for every non-bankruptcy message, plain text or HTML, a
second evaluation of `data` on the state left by the first returns the same
mapping (the caches of case names and docket numbers grow, but nothing
outside the bankruptcy short-description parser reads their length). -/
theorem c1_amended (court : String) (ct : Option String)
    (subject? : Option String) (tree? : Option HtmlTree)
    (is_valid : Option Bool) (img : Bool)
    (hbank : pyEndsWith "b" court = false)
    (r : Option NotificationData) (s2 : NEState)
    (h : dataStep (mkNotificationEmail court ct subject?
      tree? is_valid img) = .ok (r, s2)) :
    ∃ s3, dataStep s2 = .ok (r, s3) := by
  by_cases hinv : is_valid = some false ∨ tree? = none ∨ img = true
  · have hs : dataStep (mkNotificationEmail court ct subject?
        tree? is_valid img) = .ok (none, mkNotificationEmail court
          ct subject? tree? is_valid img) := by
      unfold dataStep mkNotificationEmail
      try simp only []
      rw [if_pos hinv]
    rw [hs] at h
    injection h with h
    injection h with h1 h2
    subst h1
    subst h2
    exact ⟨_, hs⟩
  · cases htree : tree? with
    | none => exact absurd (Or.inr (Or.inl htree)) hinv
    | some tree =>
      subst htree
      unfold dataStep at h
      simp only [mkNotificationEmail] at h
      rw [if_neg hinv, hbank] at h
      try simp only [] at h
      by_cases hct : ct = some "text/plain"
      · -- plain-text path
        subst hct
        try rw [if_pos rfl] at h
        obtain ⟨p, hdp, h⟩ := bind_ok_inv h
        obtain ⟨ds, cns, dns⟩ := p
        try simp only [] at h
        try rw [if_pos rfl] at h
        try rw [if_pos trivial] at h
        injection h with h
        injection h with h1 h2
        obtain ⟨rawCn, es, hcn, hes, hds, hcns, hdns⟩ :=
          getDocketsPlain_inv _ _ _ _ _ _ _ _ _ _ _ hdp
        simp only [List.nil_append] at hes hcns hdns
        subst hcns
        subst hdns
        have hes2 : getDocketEntriesPlain court tree.textContent subject?
            ([cleanString rawCn] ++ [cleanString rawCn])
            ([getDocketNumberPlain tree.textContent] ++
              [getDocketNumberPlain tree.textContent])
            (isAppellateCompute tree) false tree.documentDescriptionFooterTexts =
            .ok es := by
          have hdup := getDocketEntriesPlain_dup court tree.textContent subject?
            (cleanString rawCn) (getDocketNumberPlain tree.textContent)
            (isAppellateCompute tree) tree.documentDescriptionFooterTexts
          simpa using hdup.trans hes
        have hdp2 := getDocketsPlain_eq court tree.textContent subject?
          (isAppellateCompute tree) false tree.documentDescriptionFooterTexts
          [cleanString rawCn] [getDocketNumberPlain tree.textContent] rawCn es hcn hes2
        refine ⟨NEState.mk court (some "text/plain")
          (some (isAppellateCompute tree)) img
          ([getDocketNumberPlain tree.textContent] ++
            [getDocketNumberPlain tree.textContent])
          subject? ([cleanString rawCn] ++ [cleanString rawCn]) false is_valid
          (some tree), ?_⟩
        rw [← h2]
        unfold dataStep
        try simp only []
        rw [if_neg hinv]
        try simp only []
        try rw [hbank]
        rw [hdp2]
        simp only [exceptBindOk]
        try simp only []
        rw [← h1, hds]
        simp only [if_true]
      · -- HTML path
        rw [if_neg hct] at h
        obtain ⟨p, hdp, h⟩ := bind_ok_inv h
        obtain ⟨ds, C, D⟩ := p
        try simp only [] at h
        rw [if_neg hct] at h
        obtain ⟨recips, hrec, h⟩ := bind_ok_inv h
        injection h with h
        injection h with h1 h2
        have hidem := getDocketsHtml_idem court tree subject?
          (isAppellateCompute tree) ds C D hdp
        have hrec2 : getEmailRecipients tree (isAppellateCompute tree)
            (D ++ D) = .ok recips := by
          rw [getEmailRecipients_dup]
          exact hrec
        refine ⟨NEState.mk court ct (some (isAppellateCompute tree)) img
          (D ++ D) subject? (C ++ C) false is_valid (some tree), ?_⟩
        rw [← h2]
        unfold dataStep
        try simp only []
        rw [if_neg hinv]
        try simp only []
        try rw [hbank]
        rw [if_neg hct]
        rw [hidem]
        simp only [exceptBindOk]
        try simp only []
        rw [if_neg hct]
        rw [hrec2]
        simp only [exceptBindOk]
        rw [← h1]

/-- Body of the concrete district message for the C1 witness. -/
def c1wBody : String :=
  "Case Name: A v. B\nCase Number: 1:2-cv-9\nDocket Text: Order filed on 11/02/2022 The following document"

/-- Tree of the C1 witness message. -/
def c1wTree : HtmlTree := { textContent := c1wBody }

/-- The single entry the C1 witness run produces. -/
def c1wEntry : DocketEntryR :=
  { date_filed := CalDate.mk 11 2 2022, description := "Order filed on 11/02/2022",
    short_description := "1:2-cv-9 Letter", document_url := none,
    document_number := none, pacer_doc_id := none, pacer_case_id := none,
    pacer_seq_no := none, pacer_magic_num := none }

/-- The single docket the C1 witness run produces. -/
def c1wDocket : DocketR :=
  { case_name := "A v. B", docket_number := some "1:2-cv-9", date_filed := none,
    docket_entries := [c1wEntry] }

/-- The mapping returned by the first evaluation in the C1 witness. -/
def c1wData : NotificationData :=
  { court_id := "nysd", appellate := false, dockets := [c1wDocket],
    contains_attachments := false, email_recipients := [] }

/-- The instance state after the first evaluation in the C1 witness. -/
def c1wS2 : NEState :=
  { court_id := "nysd", content_type := some "text/plain",
    appellate := some false, image_attached := false,
    docket_numbers := [some "1:2-cv-9"], subject := some "1:2-cv-9 Letter",
    case_names := ["A v. B"], is_bankruptcy := false, is_valid := some true,
    tree := some c1wTree }

/-- Docket table of the concrete HTML message for the C1 witness. -/
def c1hTable : DocketTable :=
  { caseNameText := some "A v. B",
    caseNumberAnchorTexts := ["1:2-cv-9"],
    documentNumberCellText := some "9",
    descriptionCandidates := [["Order Granted"]] }

/-- Tree of the concrete HTML message for the C1 witness. -/
def c1hTree : HtmlTree :=
  { textContent := "Order Granted filed on 11/02/2022",
    docketTables := [c1hTable] }

/-- The single entry the HTML C1 witness run produces. -/
def c1hEntry : DocketEntryR :=
  { date_filed := CalDate.mk 11 2 2022, description := "Order Granted",
    short_description := "1:2-cv-9 Letter", document_url := none,
    document_number := some "9", pacer_doc_id := none, pacer_case_id := none,
    pacer_seq_no := none, pacer_magic_num := none }

/-- The single docket the HTML C1 witness run produces. -/
def c1hDocket : DocketR :=
  { case_name := "A v. B", docket_number := some "1:2-cv-9", date_filed := none,
    docket_entries := [c1hEntry] }

/-- The mapping returned by the first evaluation in the HTML C1 witness. -/
def c1hData : NotificationData :=
  { court_id := "nysd", appellate := false, dockets := [c1hDocket],
    contains_attachments := false, email_recipients := [] }

/-- The instance state after the first evaluation in the HTML C1 witness. -/
def c1hS2 : NEState :=
  { court_id := "nysd", content_type := some "text/html",
    appellate := some false, image_attached := false,
    docket_numbers := [some "1:2-cv-9"], subject := some "1:2-cv-9 Letter",
    case_names := ["A v. B"], is_bankruptcy := false, is_valid := some true,
    tree := some c1hTree }

/-- Witness for C1 amended: the second evaluation of `data` returns the
same mapping, at a concrete plain-text message and at a concrete HTML
message, both non-bankruptcy. -/
theorem c1_amended_witness :
    (∃ s3, dataStep c1wS2 = .ok (some c1wData, s3)) ∧
    (∃ s3, dataStep c1hS2 = .ok (some c1hData, s3)) :=
  ⟨c1_amended "nysd" (some "text/plain") (some "1:2-cv-9 Letter") (some c1wTree)
      (some true) false (by decide) (some c1wData) c1wS2 (by decide),
   c1_amended "nysd" (some "text/html") (some "1:2-cv-9 Letter") (some c1hTree)
      (some true) false (by decide) (some c1hData) c1hS2 (by decide)⟩

end Juriscraper
